import Mathlib

/-!
A verification development for the deepstory streaming narrative pipeline:
shallow embeddings of the cache layer (cache.py), the Redis-backed task
manager (tasks/task_manager.py), the resource tracker (engine/tracer.py),
the story-engine producer (engine/producer.py), the streaming consumer
(engine/consumer.py), and the resource-result models (tasks/models.py),
together with theorems settling the specification claims about them.

Modelling conventions: a Redis list is a Lean list whose head is the Redis
left end (LPUSH conses, RPUSH appends, BRPOP takes the last element); Redis
string/set/hash state is a function from keys to values; timestamps are
naturals; Python values carried through the cache are the PyVal inductive
below.
-/

/-- A Python value as stored and serialized by the cache layer:
JSON-expressible data (None, booleans, integers, strings, lists, dicts).
Floats are outside the modelled domain. -/
inductive PyVal where
  | null
  | bool (b : Bool)
  | int (n : Int)
  | str (s : String)
  | list (items : List PyVal)
  | dict (entries : List (String × PyVal))

/-- Task states, from TaskStatus in tasks/models.py. -/
inductive TaskStatus where
  | pending
  | queued
  | running
  | completed
  | failed
  | retrying
  | cancelled
  | timeout
deriving DecidableEq, Repr

/-- A persisted task record, from TaskInfo in tasks/models.py (the cached
JSON under tasks:info:(task id)). args/kwargs are carried as PyVal lists so
the record matches the pydantic model shape; they play no role in the
scheduler logic. -/
structure TaskInfo where
  taskId : String
  queueName : String
  functionName : String
  args : List PyVal := []
  kwargs : List (String × PyVal) := []
  status : TaskStatus := .pending
  createdAt : Nat := 0
  startedAt : Option Nat := none
  completedAt : Option Nat := none
  result : Option PyVal := none
  error : Option String := none
  retryCount : Nat := 0
  maxTries : Nat := 3

/-- The Redis state a TaskManager reads and writes: queue lists
(queue:(name)), running sets (tasks:running:(name), kept as lists with set
semantics), and task records (tasks:info:(id)). -/
structure TMState where
  queues : String → List String
  running : String → List String
  infos : String → Option TaskInfo

/-- LPUSH onto queue:(q): insert at the left end. -/
def lpushQueue (st : TMState) (q id : String) : TMState :=
  { st with queues := fun q2 => if q2 = q then id :: st.queues q2 else st.queues q2 }

/-- RPUSH onto queue:(q): insert at the right end (the BRPOP end). -/
def rpushQueue (st : TMState) (q id : String) : TMState :=
  { st with queues := fun q2 => if q2 = q then st.queues q2 ++ [id] else st.queues q2 }

/-- BRPOP from queue:(q): take the element at the right end, as the worker
loop in task_manager.py does. -/
def brpopQueue (st : TMState) (q : String) : Option String × TMState :=
  match (st.queues q).getLast? with
  | some id =>
      (some id,
       { st with queues := fun q2 => if q2 = q then (st.queues q2).dropLast else st.queues q2 })
  | none => (none, st)

/-- SREM on tasks:running:(q). -/
def sremRunning (st : TMState) (q id : String) : TMState :=
  { st with running := fun q2 => if q2 = q then (st.running q2).filter (· ≠ id) else st.running q2 }

/-- SETEX of tasks:info:(id) (TaskManager._update_task_info; the TTL is not
part of the modelled state). -/
def setInfo (st : TMState) (id : String) (info : TaskInfo) : TMState :=
  { st with infos := fun id2 => if id2 = id then some info else st.infos id2 }

/-- The record reset recovery applies to a still-live running task: status
back to pending, started_at cleared (task_manager.py lines 107-108). -/
def resetInfo (info : TaskInfo) : TaskInfo :=
  { info with status := .pending, startedAt := none }

/-- One iteration of the recovery loop body of TaskManager._recover_tasks
for a single task id found in tasks:running:(q): if the record still
exists, reset it, LPUSH the id back onto queue:(q) and SREM it from the
running set; if the record has expired, the source has no else branch and
the state is untouched. -/
def recoverOne (st : TMState) (q id : String) : TMState :=
  match st.infos id with
  | some info =>
      let st1 := setInfo st id (resetInfo info)
      let st2 := lpushQueue st1 q id
      sremRunning st2 q id
  | none => st

/-- Recovery of one queue: iterate the loop body over the SMEMBERS snapshot
taken on entry (task_manager.py line 97). -/
def recoverQueue (st : TMState) (q : String) : TMState :=
  (st.running q).foldl (fun s id => recoverOne s q id) st

/-- TaskManager._recover_tasks: recover every configured queue in order. -/
def recoverTasks (queueNames : List String) (st : TMState) : TMState :=
  queueNames.foldl recoverQueue st

/-- Name resolution inside TaskManager._call_function: looking the function
name up among the resolvable callables; an unknown name raises, which
_execute_task reformats as (exception type): (message). The modelled error
string follows the undotted branch AttributeError text. -/
def callFunctionResolve (available : List String) (functionName : String) :
    Except String Unit :=
  if functionName ∈ available then Except.ok ()
  else Except.error
    ("AttributeError: Function \u0027" ++ functionName ++ "\u0027 not found")

/-- The retry-delay choice of TaskManager._handle_task_failure: the delay at
index retry_count - 1 while retry_count is within the list, else the last
entry. -/
def pickRetryDelay (retryDelays : List Nat) (retryCount : Nat) : Nat :=
  if retryCount ≤ retryDelays.length then
    retryDelays.getD (retryCount - 1) 0
  else
    retryDelays.getLastD 0

/-- TaskManager._handle_task_failure: bump retry_count; while it is still
below max_tries the task becomes retrying and a delayed requeue is
scheduled (returned as the chosen delay); otherwise the task is marked
failed with completed_at set and nothing is scheduled. -/
def handleTaskFailure (retryDelays : List Nat) (info : TaskInfo) (now : Nat) :
    TaskInfo × Option Nat :=
  let rc := info.retryCount + 1
  if rc < info.maxTries then
    ({ info with retryCount := rc, status := .retrying }, some (pickRetryDelay retryDelays rc))
  else
    ({ info with retryCount := rc, status := .failed, completedAt := some now }, none)

/-- The failure path of TaskManager._execute_task for a task whose function
name does not resolve: _call_function raises, the except branch records the
error message on the record and delegates to _handle_task_failure. When the
name resolves this model stops (the execution itself is outside this
claim). -/
def executeTaskUnresolved (available : List String) (retryDelays : List Nat)
    (info : TaskInfo) (now : Nat) : TaskInfo × Option Nat :=
  match callFunctionResolve available info.functionName with
  | Except.ok _ => (info, none)
  | Except.error msg => handleTaskFailure retryDelays { info with error := some msg } now

/-- The queue effect of TaskManager.submit_task: persist the fresh pending
record, then LPUSH the new id onto queue:(q). -/
def submitTaskState (st : TMState) (q newId : String) (info : TaskInfo) : TMState :=
  lpushQueue (setInfo st newId info) q newId

/-- TaskManager._delayed_requeue after its sleep: re-read the record and,
only if it is still retrying, set it back to pending and RPUSH the id so
the retry is next at the BRPOP end. -/
def delayedRequeue (st : TMState) (q id : String) : TMState :=
  match st.infos id with
  | some info =>
      if info.status = .retrying then
        rpushQueue (setInfo st id { info with status := .pending }) q id
      else st
  | none => st

/-- A tracked resource from engine/tracer.py: the optional backing task and
the asyncio future, whose settlement is none while pending and otherwise
the cached ok value or error message. asyncio never lets a done future
change, and both setters and the poll loop test done() first. -/
structure TrackedRes where
  taskId : Option String := none
  queue : Option String := none
  outcome : Option (Except String PyVal) := none

/-- The in-memory state of a ResourceTracker: the key-to-resource dict plus
the ordered log of task submissions it has made to the task manager, each
as (key, allocated task id). -/
structure TrackerState where
  resources : String → Option TrackedRes
  submitted : List (String × String)

/-- ResourceTracker.register: allocate an unresolved handle if the key is
absent; an existing entry is kept as is. -/
def trackerRegister (st : TrackerState) (key : String) : TrackerState :=
  match st.resources key with
  | some _ => st
  | none => { st with resources := fun k => if k = key then some {} else st.resources k }

/-- ResourceTracker.set_result: register if absent, then settle the future
with the value only when it is not yet done. -/
def trackerSetResult (st : TrackerState) (key : String) (v : PyVal) : TrackerState :=
  let st1 := trackerRegister st key
  match st1.resources key with
  | some r =>
      if r.outcome.isNone then
        { st1 with resources :=
            fun k => if k = key then some { r with outcome := some (Except.ok v) }
                     else st1.resources k }
      else st1
  | none => st1

/-- ResourceTracker.set_exception: register if absent, then settle the
future with the error only when it is not yet done. -/
def trackerSetException (st : TrackerState) (key msg : String) : TrackerState :=
  let st1 := trackerRegister st key
  match st1.resources key with
  | some r =>
      if r.outcome.isNone then
        { st1 with resources :=
            fun k => if k = key then some { r with outcome := some (Except.error msg) }
                     else st1.resources k }
      else st1
  | none => st1

/-- ResourceTracker.submit: when the key is already tracked and its future
is not done, return the existing future and submit nothing; otherwise
submit a task to the manager (logged with the fresh id) and install a new
pending resource under the key, replacing any settled one. -/
def trackerSubmit (st : TrackerState) (key freshId q : String) : TrackerState :=
  match st.resources key with
  | some r =>
      if r.outcome.isNone then st
      else
        { resources := fun k =>
            if k = key then some { taskId := some freshId, queue := some q } else st.resources k,
          submitted := st.submitted ++ [(key, freshId)] }
  | none =>
      { resources := fun k =>
          if k = key then some { taskId := some freshId, queue := some q } else st.resources k,
        submitted := st.submitted ++ [(key, freshId)] }

/-- One resource's treatment in a pass of ResourceTracker._poll_loop:
task-backed and not done, the task record decides — missing record settles
with a not-found error, completed settles with the result (Python None
when absent), failed settles with the recorded error message; any other
status, and any direct-mode or already-done resource, is left alone. -/
def pollResource (table : String → Option TaskInfo) (r : TrackedRes) : TrackedRes :=
  match r.taskId with
  | none => r
  | some tid =>
      if r.outcome.isSome then r
      else
        match table tid with
        | none => { r with outcome := some (Except.error ("Task " ++ tid ++ " not found")) }
        | some ti =>
            match ti.status with
            | .completed => { r with outcome := some (Except.ok (ti.result.getD .null)) }
            | .failed => { r with outcome := some (Except.error (ti.error.getD "Task failed")) }
            | _ => r

/-- A full pass of ResourceTracker._poll_loop over the resource dict, the
task-record table read through TaskManager.get_task_status. -/
def trackerPoll (table : String → Option TaskInfo) (st : TrackerState) : TrackerState :=
  { st with resources := fun k => (st.resources k).map (pollResource table) }

/-- The settlement recorded for a key, if any. -/
def outcomeOf (st : TrackerState) (key : String) : Option (Except String PyVal) :=
  (st.resources key).bind (·.outcome)

/-- ResourceTracker.get on a settled key: the cached value, or the default
when the future holds an exception (the except branch of get returns the
default). On an unsettled key get awaits instead; the sequential model
returns none there. -/
def trackerGetSettled (st : TrackerState) (key : String) (default : PyVal) : Option PyVal :=
  match st.resources key with
  | some r =>
      match r.outcome with
      | some (Except.ok v) => some v
      | some (Except.error _) => some default
      | none => none
  | none => none

/-- The settle-bearing operations of claim five: direct set_result and
set_exception, and a poll-loop pass reading a task-record table. -/
inductive SettleOp where
  | setRes (key : String) (v : PyVal)
  | setExc (key msg : String)
  | poll (table : String → Option TaskInfo)

/-- Apply one settle-bearing operation to the tracker. -/
def applySettleOp (st : TrackerState) : SettleOp → TrackerState
  | .setRes k v => trackerSetResult st k v
  | .setExc k m => trackerSetException st k m
  | .poll t => trackerPoll t st

/-- Apply a sequence of settle-bearing operations in order. -/
def applySettleOps (st : TrackerState) (ops : List SettleOp) : TrackerState :=
  ops.foldl applySettleOp st

/-- A resource-result value from tasks/models.py: the resource_type tag,
the label-to-URL map (a Python dict, modelled as an insertion-ordered
association list) and the audio duration field the consumer reads. -/
structure ResourceVal where
  resourceType : String
  urlMap : List (String × String) := []
  duration : Option Nat := none

/-- ResourceResult.primary_url: the default entry when present, else the
first URL of the map. -/
def ResourceVal.primaryUrl (r : ResourceVal) : Option String :=
  match r.urlMap.lookup "default" with
  | some u => some u
  | none => r.urlMap.head?.map Prod.snd

/-- ResourceResult.get_url: a single-entry map answers with its only URL
whatever the key; otherwise the keyed entry; otherwise nothing without
fallback; otherwise the default entry; otherwise the first URL. -/
def ResourceVal.getUrl (r : ResourceVal) (key : String) (fallback : Bool) : Option String :=
  if r.urlMap.length = 1 then r.urlMap.head?.map Prod.snd
  else
    match r.urlMap.lookup key with
    | some u => some u
    | none =>
        if !fallback then none
        else
          match r.urlMap.lookup "default" with
          | some u => some u
          | none => r.urlMap.head?.map Prod.snd

/-- StreamingConsumer._extract_url on a typed resource result: a portrait
with an emotion resolves through get_emotion_url, that is get_url with
fallback; a portrait without one, and every other resource type, through
primary_url. The JSON-string and raw-dict compatibility branches of the
source are subsumed by the typed codomain of the resolver. -/
def extractUrl (r : ResourceVal) (emotion : Option String) : Option String :=
  if r.resourceType = "portrait" then
    match emotion with
    | some e => r.getUrl e true
    | none => r.primaryUrl
  else r.primaryUrl

/-- The narrative-event sum type exactly as engine/producer.py defines it:
each dataclass becomes one constructor carrying its declared fields. The
URL fields the consumer attaches are not part of these dataclasses (they
are set dynamically) and live in UrlFill below. -/
inductive NarrativeEvent where
  | storyStart (eventId title : String)
  | chapterStart (eventId : String) (chapterIndex : Nat) (title : String)
  | sceneStart (eventId sceneIndex title location time bgId : String)
      (backgroundKey musicKey ambientKey musicDesc ambientDesc : Option String)
  | dialogue (eventId character characterTag text emotion : String)
      (isMonologue : Bool) (voiceKey imageKey : Option String)
  | narration (eventId text : String) (voiceKey : Option String)
  | sound (eventId description : String) (soundKey : Option String)
  | storyEnd (eventId : String)

/-- The event_type discriminator of each producer dataclass. -/
def eventType : NarrativeEvent → String
  | .storyStart .. => "story_start"
  | .chapterStart .. => "chapter_start"
  | .sceneStart .. => "scene_start"
  | .dialogue .. => "dialogue"
  | .narration .. => "narration"
  | .sound .. => "sound"
  | .storyEnd .. => "story_end"

/-- One event of the streaming pull parser (utils.XMLParser.stream): a start
or end of a tag, with its attributes and accumulated text. -/
structure XmlEvent where
  kind : String
  tag : String
  attrib : List (String × String) := []
  text : String := ""

/-- The scene fields StoryEngine._process_scene reads from its SceneInfo
work item. -/
structure SceneInfoM where
  index : String
  title : String := ""
  location : String := ""
  time : String := ""

/-- A tracker.submit call issued by the producer: resource key, task
function name, target queue. -/
structure SubmitReq where
  key : String
  fn : String
  queue : String

/-- The engine's collaborators that _process_scene calls, injected as
functions: bgIdOf is utils.get_bg_id (md5-based), charTag is
StoryEngine._character_tag (normalize_name plus pinyin), resolveCharacter
is the characters-dict lookup with the gender/age inference heuristics,
voiceIdOf is StoryEngine._get_voice_id (tracker wait plus mediahub voice
search), normalizeEmotion / cleanText / cleanSound are the corresponding
normalize and utils helpers, narrationVoice is the configured narrator
voice id. No claim under proof depends on their internals. -/
structure EngineDeps where
  bgIdOf : String → String → String
  charTag : String → String → String
  resolveCharacter : String → String × String
  voiceIdOf : String → String → String → String
  normalizeEmotion : String → String
  cleanText : String → String
  cleanSound : String → String
  narrationVoice : Option String

/-- The descriptions treated as absent for scene music and ambient audio in
_process_scene (compared lowercased). -/
def forbiddenAudioDesc : List String := ["无", "none", "null"]

/-- Python str.lower on the modelled character data. -/
def asciiLower (s : String) : String := String.map Char.toLower s

/-- Truthiness-plus-blacklist test _process_scene applies to a music or
ambient attribute before submitting an audio task. -/
def audioDescUsable : Option String → Bool
  | some m => m != "" && !(forbiddenAudioDesc.contains (asciiLower m))
  | none => false

/-- The branch dispatch of StoryEngine._process_scene on one parser event,
given the running event index (scene index concatenated with the ordinal):
a scene start emits SceneStart and submits the usable music/ambient tasks;
a dialogue or monologue end resolves the character and emits Dialogue with
its voice task; a sound end emits SoundEvent with its audio-search task; an
action or narration end emits Narration, with a narrator voice task only
when a narrator voice is configured. Everything else emits nothing. -/
def processSceneStep (deps : EngineDeps) (si : SceneInfoM) (eventIndex : String)
    (x : XmlEvent) : List NarrativeEvent × List SubmitReq :=
  if x.kind = "start" ∧ x.tag = "scene" then
    let bgId := deps.bgIdOf si.location si.time
    let music := x.attrib.lookup "music"
    let ambient := x.attrib.lookup "ambient"
    let musicKey := if audioDescUsable music then some ("music_" ++ si.index) else none
    let ambientKey := if audioDescUsable ambient then some ("ambient_" ++ si.index) else none
    let subs1 := match musicKey with
      | some k => [SubmitReq.mk k "tasks.sound_audio" "audio_processing"]
      | none => []
    let subs2 := match ambientKey with
      | some k => [SubmitReq.mk k "tasks.sound_audio" "audio_processing"]
      | none => []
    ([NarrativeEvent.sceneStart ("scene_" ++ si.index) si.index si.title si.location si.time
        bgId (some ("bg_" ++ bgId)) musicKey ambientKey music ambient],
     subs1 ++ subs2)
  else if x.kind = "end" ∧ (x.tag = "dialogue" ∨ x.tag = "monologue") then
    let charName := (x.attrib.lookup "character").getD ""
    let ga := deps.resolveCharacter charName
    let emotion := deps.normalizeEmotion ((x.attrib.lookup "emotion").getD "normal")
    let text := deps.cleanText x.text
    let voiceKey := "voice_" ++ eventIndex
    let imageKey := "portrait_" ++ deps.charTag charName ga.2
    ([NarrativeEvent.dialogue ("dialogue_" ++ eventIndex) charName
        (deps.charTag charName ga.2) text emotion (x.tag == "monologue")
        (some voiceKey) (some imageKey)],
     [SubmitReq.mk voiceKey "tasks.dialogue_asr" "audio_processing"])
  else if x.kind = "end" ∧ x.tag = "sound" then
    let desc := deps.cleanSound x.text
    let soundKey := "sound_" ++ eventIndex
    ([NarrativeEvent.sound ("sound_" ++ eventIndex) desc (some soundKey)],
     [SubmitReq.mk soundKey "tasks.sound_audio" "audio_processing"])
  else if x.kind = "end" ∧ (x.tag = "action" ∨ x.tag = "narration") then
    let text := deps.cleanText x.text
    match deps.narrationVoice with
    | some _ =>
        ([NarrativeEvent.narration ("narration_" ++ eventIndex) text
            (some ("narration_" ++ eventIndex))],
         [SubmitReq.mk ("narration_" ++ eventIndex) "tasks.dialogue_asr" "audio_processing"])
    | none => ([NarrativeEvent.narration ("narration_" ++ eventIndex) text none], [])
  else ([], [])

/-- The parser-event loop of _process_scene: the ordinal is bumped for
every parser event before dispatch, and the emitted events and submissions
accumulate in order. -/
def processSceneFrom (deps : EngineDeps) (si : SceneInfoM) (idx : Nat) :
    List XmlEvent → List NarrativeEvent × List SubmitReq
  | [] => ([], [])
  | x :: xs =>
      let n := idx + 1
      let step := processSceneStep deps si (si.index ++ toString n) x
      let rest := processSceneFrom deps si n xs
      (step.1 ++ rest.1, step.2 ++ rest.2)

/-- StoryEngine._process_scene over the parser events of one scene
session. -/
def processScene (deps : EngineDeps) (si : SceneInfoM) (xs : List XmlEvent) :
    List NarrativeEvent × List SubmitReq :=
  processSceneFrom deps si 0 xs

/-- A work item of the storylets queue, from engine/models.py: the story
record, a chapter (sequence) record, or a scene. -/
inductive Storylet where
  | story (title : String)
  | sequence (idx : Nat) (title : String)
  | scene (si : SceneInfoM)

/-- One iteration of the storylets loop in StoryEngine.run: a story item is
skipped, a sequence item yields ChapterStart, a scene item streams its
script (fetched per scene, injected as sceneXml) through _process_scene. -/
def runEngineStep (deps : EngineDeps) (sceneXml : SceneInfoM → List XmlEvent) :
    Storylet → List NarrativeEvent
  | .story _ => []
  | .sequence i t => [NarrativeEvent.chapterStart ("chapter_" ++ toString i) i t]
  | .scene si => (processScene deps si (sceneXml si)).1

/-- StoryEngine.run on a completing invocation: StoryStart (with the cached
title or the default), then the storylet queue in FIFO order, then
StoryEnd. -/
def runEngine (deps : EngineDeps) (sceneXml : SceneInfoM → List XmlEvent)
    (title : Option String) (storylets : List Storylet) : List NarrativeEvent :=
  NarrativeEvent.storyStart "story_start" (title.getD "故事开始") ::
    (storylets.flatMap (runEngineStep deps sceneXml) ++ [NarrativeEvent.storyEnd "story_end"])

/-- The module-level class names engine/producer.py defines. -/
def producerDefinedClasses : List String :=
  ["NarrativeEvent", "StoryStartEvent", "ChapterStartEvent", "SceneStartEvent",
   "DialogueEvent", "NarrationEvent", "SoundEvent", "StoryEndEvent", "StoryEngine"]

/-- The names StreamingConsumer.stream imports from engine.producer as its
first statement (consumer.py lines 97-99). -/
def streamImportedNames : List String :=
  ["DialogueEvent", "NarrationEvent", "AudioEvent", "SceneStartEvent"]

/-- The URL and duration fields the consumer attaches to an event after
resolving its keys; every other event field is untouched. -/
structure UrlFill where
  voiceUrl : Option String := none
  voiceDuration : Option Nat := none
  imageUrl : Option String := none
  audioUrl : Option String := none
  backgroundUrl : Option String := none

/-- The per-event resolution step of StreamingConsumer.stream: a dialogue
waits on its voice key (URL and duration) and portrait key (URL extracted
by the dialogue emotion); a narration waits on its voice key; a scene
start waits on its background key. The branch for the audio event class is
unwritable here because engine.producer defines no such class; sound
events fall through unmodified, as does every other event. -/
def fillEvent (resolve : String → Option ResourceVal) (e : NarrativeEvent) :
    NarrativeEvent × UrlFill :=
  match e with
  | .dialogue _ _ _ _ emotion _ voiceKey imageKey =>
      let vres := voiceKey.bind resolve
      let ires := imageKey.bind resolve
      (e, { voiceUrl := vres.bind (extractUrl · none),
            voiceDuration := vres.bind (·.duration),
            imageUrl := ires.bind (extractUrl · (some emotion)) })
  | .narration _ _ voiceKey =>
      let vres := voiceKey.bind resolve
      (e, { voiceUrl := vres.bind (extractUrl · none),
            voiceDuration := vres.bind (·.duration) })
  | .sceneStart _ _ _ _ _ _ backgroundKey _ _ _ _ =>
      (e, { backgroundUrl := (backgroundKey.bind resolve).bind (extractUrl · none) })
  | _ => (e, {})

/-- StreamingConsumer.stream as a run over the producer's emitted events:
the first statement resolves its imports from engine.producer, and only if
every name resolves does the loop pump the queue in order, filling URLs
per event; an unresolvable name raises ImportError before any event is
yielded. -/
def streamRun (resolve : String → Option ResourceVal) (events : List NarrativeEvent) :
    Except String (List (NarrativeEvent × UrlFill)) :=
  if streamImportedNames.all (fun n => producerDefinedClasses.contains n) then
    Except.ok (events.map (fillEvent resolve))
  else
    Except.error "ImportError: cannot import name AudioEvent from engine.producer"

/-- Whitespace as the json scanner treats it. -/
def isWsC (c : Char) : Bool := c == '\t' || c == ' ' || c == '\r' || c == '\n'

/-- Drop leading whitespace. -/
def skipWsL : List Char → List Char
  | c :: cs => if isWsC c then skipWsL cs else c :: cs
  | [] => []

/-- An ASCII decimal digit, as the json number scanner recognizes it. -/
def isDigitC (c : Char) : Bool := 48 ≤ c.toNat && c.toNat ≤ 57

/-- Lower-case hex digit of a value below sixteen, as json.dumps emits in
backslash-u escapes. -/
def hexDigitChar (n : Nat) : Char :=
  if n < 10 then Char.ofNat (48 + n) else Char.ofNat (87 + n)

/-- One character as json.dumps with ensure_ascii False writes it: quote,
backslash and the five short control escapes by table, the remaining
control characters as backslash-u escapes, everything else raw. -/
def pyEscapeChar (c : Char) : List Char :=
  if c = '"' then ['\\', '"']
  else if c = '\\' then ['\\', '\\']
  else if c = '\n' then ['\\', 'n']
  else if c = '\r' then ['\\', 'r']
  else if c = '\t' then ['\\', 't']
  else if c.toNat = 8 then ['\\', 'b']
  else if c.toNat = 12 then ['\\', 'f']
  else if c.toNat < 32 then
    ['\\', 'u', hexDigitChar (c.toNat / 4096 % 16), hexDigitChar (c.toNat / 256 % 16),
     hexDigitChar (c.toNat / 16 % 16), hexDigitChar (c.toNat % 16)]
  else [c]

/-- A rendered JSON string: opening quote, escaped characters, closing
quote. -/
def dumpStrChars (s : String) : List Char :=
  '"' :: (s.data.flatMap pyEscapeChar ++ ['"'])

/-- Decimal digit characters of a natural, most significant first. -/
def natChars (n : Nat) : List Char :=
  if _h : n < 10 then [Char.ofNat (48 + n)]
  else natChars (n / 10) ++ [Char.ofNat (48 + n % 10)]
termination_by n
decreasing_by omega

/-- Decimal characters of an integer: optional minus sign, then digits. -/
def intChars (i : Int) : List Char :=
  if i < 0 then '-' :: natChars i.natAbs else natChars i.natAbs

mutual
/-- json.dumps with ensure_ascii False and the default item and key
separators, producing characters. -/
def dumpChars : PyVal → List Char
  | .null => 'n' :: ['u', 'l', 'l']
  | .bool true => 't' :: ['r', 'u', 'e']
  | .bool false => 'f' :: ['a', 'l', 's', 'e']
  | .int n => intChars n
  | .str s => dumpStrChars s
  | .list items => '[' :: (dumpItemsChars items ++ [']'])
  | .dict entries => '{' :: (dumpEntriesChars entries ++ ['}'])

/-- List items joined by the default comma-space separator. -/
def dumpItemsChars : List PyVal → List Char
  | [] => []
  | v :: vs => dumpChars v ++ dumpItemsSep vs

/-- The separator-prefixed tail of a dumped item list. -/
def dumpItemsSep : List PyVal → List Char
  | [] => []
  | v :: vs => ',' :: ' ' :: (dumpChars v ++ dumpItemsSep vs)

/-- Dict entries as key, colon-space, value, joined by comma-space. -/
def dumpEntriesChars : List (String × PyVal) → List Char
  | [] => []
  | (k, v) :: es => dumpStrChars k ++ ':' :: ' ' :: (dumpChars v ++ dumpEntriesSep es)

/-- The separator-prefixed tail of a dumped entry list. -/
def dumpEntriesSep : List (String × PyVal) → List Char
  | [] => []
  | (k, v) :: es => ',' :: ' ' :: (dumpStrChars k ++ ':' :: ' ' :: (dumpChars v ++ dumpEntriesSep es))
end

/-- json.dumps of a modelled Python value. -/
def jsonDumps (v : PyVal) : String := String.mk (dumpChars v)

/-- Value of a lower-case hex digit character, as the backslash-u decoder
reads it. -/
def hexValOf (c : Char) : Option Nat :=
  if 48 ≤ c.toNat ∧ c.toNat ≤ 57 then some (c.toNat - 48)
  else if 97 ≤ c.toNat ∧ c.toNat ≤ 102 then some (c.toNat - 87)
  else if 65 ≤ c.toNat ∧ c.toNat ≤ 70 then some (c.toNat - 55)
  else none

/-- The short escapes json.loads accepts after a backslash. -/
def unescapeOf (c : Char) : Option Char :=
  if c = '"' then some '"'
  else if c = '\\' then some '\\'
  else if c = '/' then some '/'
  else if c = 'n' then some '\n'
  else if c = 'r' then some '\r'
  else if c = 't' then some '\t'
  else if c = 'b' then some (Char.ofNat 8)
  else if c = 'f' then some (Char.ofNat 12)
  else none

/-- The body of a JSON string after the opening quote: characters up to the
closing quote, decoding short and backslash-u escapes, rejecting raw
control characters as the strict loader does. -/
def parseStrBody : List Char → Option (List Char × List Char)
  | [] => none
  | c :: rest =>
      if c = '"' then some ([], rest)
      else if c = '\\' then
        match rest with
        | [] => none
        | e :: rest2 =>
            if e = 'u' then
              match rest2 with
              | [] => none
              | a :: ra =>
                  match ra with
                  | [] => none
                  | b :: rb =>
                      match rb with
                      | [] => none
                      | c2 :: rc =>
                          match rc with
                          | [] => none
                          | d :: rest3 =>
                              match hexValOf a with
                              | none => none
                              | some va =>
                                  match hexValOf b with
                                  | none => none
                                  | some vb =>
                                      match hexValOf c2 with
                                      | none => none
                                      | some vc =>
                                          match hexValOf d with
                                          | none => none
                                          | some vd =>
                                              (parseStrBody rest3).map
                                                (fun p =>
                                                  (Char.ofNat (((va * 16 + vb) * 16 + vc) * 16
                                                      + vd) :: p.1, p.2))
            else
              match unescapeOf e with
              | some ch => (parseStrBody rest2).map (fun p => (ch :: p.1, p.2))
              | none => none
      else if c.toNat < 32 then none
      else (parseStrBody rest).map (fun p => (c :: p.1, p.2))

/-- Leading run of decimal digits and the remainder. -/
def takeDigitsL : List Char → List Char × List Char
  | c :: cs => if isDigitC c then
      let p := takeDigitsL cs
      (c :: p.1, p.2)
    else ([], c :: cs)
  | [] => ([], [])

/-- Value of a most-significant-first digit list. -/
def digitsVal (ds : List Char) : Nat :=
  ds.foldl (fun acc c => acc * 10 + (c.toNat - 48)) 0

/-- An integer token: optional minus sign and a nonempty digit run.
Fractions and exponents (Python floats) are outside the modelled domain
and fail to parse. -/
def parseIntToken : List Char → Option (Int × List Char)
  | [] => none
  | c :: r =>
      if c = '-' then
        let p := takeDigitsL r
        if p.1.isEmpty then none else some (-(digitsVal p.1 : Int), p.2)
      else
        let p := takeDigitsL (c :: r)
        if p.1.isEmpty then none else some ((digitsVal p.1 : Int), p.2)

/-- Match an expected literal character sequence. -/
def expectChars : List Char → List Char → Option (List Char)
  | [], cs => some cs
  | e :: es, c :: cs => if c = e then expectChars es cs else none
  | _ :: _, [] => none

mutual
/-- json.loads value dispatch on the first significant character: the null,
true and false literals, strings, arrays, objects, and integer tokens.
Fuel decreases on every nested value; the caller passes more fuel than the
input length, which the round-trip theorem shows suffices for dumped
values. -/
def parseJsonVal (fuel : Nat) (cs : List Char) : Option (PyVal × List Char) :=
  match fuel with
  | 0 => none
  | fuel + 1 =>
      match skipWsL cs with
      | [] => none
      | c :: r =>
          if c = 'n' then (expectChars ['u', 'l', 'l'] r).map (fun r2 => (PyVal.null, r2))
          else if c = 't' then (expectChars ['r', 'u', 'e'] r).map (fun r2 => (PyVal.bool true, r2))
          else if c = 'f' then
            (expectChars ['a', 'l', 's', 'e'] r).map (fun r2 => (PyVal.bool false, r2))
          else if c = '"' then
            (parseStrBody r).map (fun p => (PyVal.str (String.mk p.1), p.2))
          else if c = '[' then
            let r1 := skipWsL r
            if r1.head? = some ']' then some (PyVal.list [], r1.tail)
            else (parseListItems fuel r1).map (fun p => (PyVal.list p.1, p.2))
          else if c = '{' then
            let r1 := skipWsL r
            if r1.head? = some '}' then some (PyVal.dict [], r1.tail)
            else (parseDictItems fuel r1).map (fun p => (PyVal.dict p.1, p.2))
          else if c = '-' ∨ isDigitC c then
            (parseIntToken (c :: r)).map (fun p => (PyVal.int p.1, p.2))
          else none

/-- One-or-more comma-separated array items up to the closing bracket. -/
def parseListItems (fuel : Nat) (cs : List Char) : Option (List PyVal × List Char) :=
  match fuel with
  | 0 => none
  | fuel + 1 =>
      (parseJsonVal fuel cs).bind fun p =>
        match skipWsL p.2 with
        | ',' :: r2 => (parseListItems fuel r2).map (fun q => (p.1 :: q.1, q.2))
        | ']' :: r2 => some ([p.1], r2)
        | _ => none

/-- One-or-more comma-separated object members up to the closing brace. -/
def parseDictItems (fuel : Nat) (cs : List Char) :
    Option (List (String × PyVal) × List Char) :=
  match fuel with
  | 0 => none
  | fuel + 1 =>
      match skipWsL cs with
      | '"' :: r =>
          (parseStrBody r).bind fun pk =>
            match skipWsL pk.2 with
            | ':' :: r2 =>
                (parseJsonVal fuel r2).bind fun pv =>
                  match skipWsL pv.2 with
                  | ',' :: r4 =>
                      (parseDictItems fuel r4).map
                        (fun q => ((String.mk pk.1, pv.1) :: q.1, q.2))
                  | '}' :: r4 => some ([(String.mk pk.1, pv.1)], r4)
                  | _ => none
            | _ => none
      | _ => none
end

/-- json.loads: parse one value and insist nothing but whitespace
follows. -/
def jsonLoads (s : String) : Option PyVal :=
  match parseJsonVal (s.data.length + 1) s.data with
  | some (v, r) => if skipWsL r = [] then some v else none
  | none => none

/-- Cache._serialize: a string passes through raw, anything else is
json.dumps output. -/
def cacheSerialize : PyVal → String
  | .str s => s
  | v => jsonDumps v

/-- Cache.push: RPUSH of the serialized value (FIFO enqueue; the expire
reset touches no list content). -/
def cachePush (queue : List String) (v : PyVal) : List String :=
  queue ++ [cacheSerialize v]

/-- Cache.pop: LPOP the head, json.loads it, and fall back to the raw
string when loading fails. -/
def cachePop (queue : List String) : Option (PyVal × List String) :=
  match queue with
  | [] => none
  | s :: rest =>
      match jsonLoads s with
      | some v => some (v, rest)
      | none => some (PyVal.str s, rest)

/-- Strings are the values Cache._serialize passes through unserialized. -/
def PyVal.isStr : PyVal → Bool
  | .str _ => true
  | _ => false

/-- A concrete instantiation of the engine collaborators, for evaluating
the embedding on closed inputs. -/
def depsExample : EngineDeps where
  bgIdOf := fun _ _ => "9f3a"
  charTag := fun name age => name ++ " " ++ age
  resolveCharacter := fun _ => ("male", "青年")
  voiceIdOf := fun _ _ _ => "voice-001"
  normalizeEmotion := fun e => e
  cleanText := fun t => t
  cleanSound := fun t => t
  narrationVoice := none

/-- A running-set entry whose record has expired: the orphan case of
recovery. -/
def tmOrphanState : TMState where
  queues := fun _ => []
  running := fun q => if q = "q1" then ["t1"] else []
  infos := fun _ => none

/-- A record as _execute_task leaves it while running. -/
def tmLiveInfo : TaskInfo where
  taskId := "t1"
  queueName := "q1"
  functionName := "tasks.scene_drawing"
  status := .running
  startedAt := some 5

/-- A running-set entry whose record is still live. -/
def tmLiveState : TMState where
  queues := fun _ => []
  running := fun q => if q = "q1" then ["t1"] else []
  infos := fun id => if id = "t1" then some tmLiveInfo else none

/-- A record in the retrying state, awaiting its delayed requeue. -/
def tmRetryInfo : TaskInfo where
  taskId := "t1"
  queueName := "q1"
  functionName := "tasks.sound_audio"
  status := .retrying
  retryCount := 1

/-- A fresh record for a new submission. -/
def tmNewInfo : TaskInfo where
  taskId := "t2"
  queueName := "q1"
  functionName := "tasks.dialogue_asr"

/-- An empty-queue state holding only the retrying record. -/
def tmRetryState : TMState where
  queues := fun _ => []
  running := fun _ => []
  infos := fun id => if id = "t1" then some tmRetryInfo else none

/-- An empty tracker. -/
def trackerEmpty : TrackerState where
  resources := fun _ => none
  submitted := []

/-- Claim C6: starting from an empty queue list, a retry requeue (RPUSH by
_delayed_requeue) followed by a fresh submission (LPUSH by submit_task)
makes the next worker BRPOP return the retried task id first. -/
theorem c6_retry_priority (st : TMState) (q tid tid2 : String) (info info2 : TaskInfo)
    (hq : st.queues q = []) (hi : st.infos tid = some info)
    (hs : info.status = .retrying) :
    (brpopQueue (submitTaskState (delayedRequeue st q tid) q tid2 info2) q).1 = some tid := by
  simp [delayedRequeue, hi, hs, rpushQueue, setInfo, submitTaskState, lpushQueue, brpopQueue, hq]

/-- Witness for C6 at a concrete state with a retrying record. -/
theorem c6_retry_priority_witness :
    (brpopQueue (submitTaskState (delayedRequeue tmRetryState "q1" "t1") "q1" "t2" tmNewInfo)
      "q1").1 = some "t1" :=
  c6_retry_priority tmRetryState "q1" "t1" "t2" tmRetryInfo tmNewInfo rfl rfl rfl

/-- Claim C7: get_url with fallback returns the unique URL of a singleton
map whatever the key; else the keyed URL when present; else the default
URL or else some URL of the map; it is none exactly on the empty map or,
without fallback, on a key miss in a non-singleton map; and primary_url
prefers the default entry, else the first URL. -/
theorem c7_get_url_characterization (r : ResourceVal) (key : String) :
    (r.urlMap.length = 1 → ∀ k fb, r.getUrl k fb = r.urlMap.head?.map Prod.snd) ∧
    (r.urlMap.length ≠ 1 → ∀ u, r.urlMap.lookup key = some u → r.getUrl key true = some u) ∧
    (r.urlMap.length ≠ 1 → r.urlMap.lookup key = none →
      (∀ d, r.urlMap.lookup "default" = some d → r.getUrl key true = some d) ∧
      (r.urlMap.lookup "default" = none → r.urlMap ≠ [] →
        ∃ kv ∈ r.urlMap, r.getUrl key true = some kv.2)) ∧
    (∀ fb, r.getUrl key fb = none ↔
      (r.urlMap = [] ∨ (fb = false ∧ r.urlMap.lookup key = none ∧ r.urlMap.length ≠ 1))) ∧
    (∀ d, r.urlMap.lookup "default" = some d → r.primaryUrl = some d) ∧
    (r.urlMap.lookup "default" = none → r.primaryUrl = r.urlMap.head?.map Prod.snd) := by
  refine ⟨?_, ?_, ?_, ?_, ?_, ?_⟩
  · intro h1 k fb
    simp [ResourceVal.getUrl, h1]
  · intro h1 u hu
    simp [ResourceVal.getUrl, h1, hu]
  · intro h1 hk
    refine ⟨?_, ?_⟩
    · intro d hd
      simp [ResourceVal.getUrl, h1, hk, hd]
    · intro hd hne
      match hm : r.urlMap with
      | [] => exact absurd hm hne
      | kv :: rest =>
          refine ⟨kv, by simp, ?_⟩
          rw [hm] at h1 hk hd
          simp [ResourceVal.getUrl, hm, h1, hk, hd]
  · intro fb
    constructor
    · intro h
      by_cases h1 : r.urlMap.length = 1
      · exfalso
        match hm : r.urlMap with
        | [] => rw [hm] at h1; simp at h1
        | kv :: rest =>
            rw [hm] at h1
            simp [ResourceVal.getUrl, h1, hm] at h
      · match hk : r.urlMap.lookup key with
        | some u => simp [ResourceVal.getUrl, h1, hk] at h
        | none =>
            cases fb with
            | false => exact Or.inr ⟨rfl, rfl, h1⟩
            | true =>
                left
                match hd : r.urlMap.lookup "default" with
                | some d => simp [ResourceVal.getUrl, h1, hk, hd] at h
                | none =>
                    match hm : r.urlMap with
                    | [] => rfl
                    | kv :: rest =>
                        rw [hm] at h1 hk hd
                        simp [ResourceVal.getUrl, hm, h1, hk, hd] at h
    · intro h
      rcases h with hm | ⟨hfb, hk, h1⟩
      · have h1 : ¬ r.urlMap.length = 1 := by rw [hm]; simp
        have hk : r.urlMap.lookup key = none := by rw [hm]; rfl
        have hd : r.urlMap.lookup "default" = none := by rw [hm]; rfl
        cases fb <;> simp [ResourceVal.getUrl, h1, hk, hd, hm]
      · subst hfb
        simp [ResourceVal.getUrl, h1, hk]
  · intro d hd
    simp [ResourceVal.primaryUrl, hd]
  · intro hd
    simp [ResourceVal.primaryUrl, hd]

/-- Witness for C7: a two-entry portrait map with a default answers a key
miss with the default URL. -/
theorem c7_get_url_witness :
    ResourceVal.getUrl ⟨"image", [("default", "u0"), ("x", "u1")], none⟩ "k" true = some "u0" :=
  ((c7_get_url_characterization ⟨"image", [("default", "u0"), ("x", "u1")], none⟩ "k").2.2.1
    (by decide) rfl).1 "u0" rfl

/-- Resetting a record is idempotent. -/
theorem resetInfo_idem (i : TaskInfo) : resetInfo (resetInfo i) = resetInfo i := rfl

/-- A recovery step touches no record but the one it processes. -/
theorem recoverOne_infos_other (s : TMState) (q2 m id : String) (h : m ≠ id) :
    (recoverOne s q2 m).infos id = s.infos id := by
  unfold recoverOne
  cases s.infos m with
  | none => rfl
  | some info => simp [sremRunning, lpushQueue, setInfo, Ne.symm h]

/-- A recovery step only ever LPUSHes onto queue lists, so queue membership
is preserved. -/
theorem recoverOne_queues_mem (s : TMState) (q2 m q id : String)
    (h : id ∈ s.queues q) : id ∈ (recoverOne s q2 m).queues q := by
  unfold recoverOne
  cases s.infos m with
  | none => exact h
  | some info =>
      simp only [sremRunning, lpushQueue, setInfo]
      by_cases hq : q = q2
      · rw [hq] at h
        simp [hq, h]
      · simp [hq, h]

/-- A recovery step only ever SREMs from running sets, so running-set
non-membership is preserved. -/
theorem recoverOne_running_notmem (s : TMState) (q2 m q id : String)
    (h : id ∉ s.running q) : id ∉ (recoverOne s q2 m).running q := by
  unfold recoverOne
  cases s.infos m with
  | none => exact h
  | some info =>
      simp only [sremRunning, lpushQueue, setInfo]
      by_cases hq : q = q2
      · simp only [hq, if_pos rfl]
        intro hmem
        exact h (hq ▸ (List.mem_filter.mp hmem).1)
      · simpa [hq] using h

/-- A recovery step on a queue other than q leaves the running set of q
untouched. -/
theorem recoverOne_running_other (s : TMState) (q2 m q : String) (hne : q2 ≠ q) :
    (recoverOne s q2 m).running q = s.running q := by
  unfold recoverOne
  cases s.infos m with
  | none => rfl
  | some info => simp [sremRunning, lpushQueue, setInfo, Ne.symm hne]

/-- Through a recovery step, the record of id stays in its original or
reset form. -/
theorem recoverOne_infos_form (s : TMState) (q2 m id : String) (orig : TaskInfo)
    (h : s.infos id = some orig ∨ s.infos id = some (resetInfo orig)) :
    (recoverOne s q2 m).infos id = some orig ∨
    (recoverOne s q2 m).infos id = some (resetInfo orig) := by
  by_cases hm : m = id
  · subst hm
    unfold recoverOne
    cases hmi : s.infos m with
    | none => rw [hmi] at h; rcases h with h | h <;> cases h
    | some info =>
        right
        have hform : resetInfo info = resetInfo orig := by
          rw [hmi] at h
          rcases h with h | h
          · injection h with h; rw [h]
          · injection h with h; rw [h, resetInfo_idem]
        simp [sremRunning, lpushQueue, setInfo, hform]
  · rw [recoverOne_infos_other s q2 m id hm]
    exact h

/-- Through a recovery step, an absent record stays absent. -/
theorem recoverOne_infos_none (s : TMState) (q2 m id : String)
    (h : s.infos id = none) : (recoverOne s q2 m).infos id = none := by
  by_cases hm : m = id
  · subst hm
    unfold recoverOne
    rw [h]
    exact h
  · rw [recoverOne_infos_other s q2 m id hm]
    exact h

/-- An orphan id (absent record) keeps its running-set membership through a
recovery step: the step never SREMs an id whose record is missing, and
SREMs of other ids cannot remove it. -/
theorem recoverOne_orphan_mem (s : TMState) (q2 m q id : String)
    (h : s.infos id = none) (hm : id ∈ s.running q) :
    id ∈ (recoverOne s q2 m).running q := by
  by_cases hmid : m = id
  · subst hmid
    unfold recoverOne
    rw [h]
    exact hm
  · unfold recoverOne
    cases s.infos m with
    | none => exact hm
    | some info =>
        simp only [sremRunning, lpushQueue, setInfo]
        by_cases hq : q = q2
        · simp only [hq, if_pos rfl]
          exact List.mem_filter.mpr ⟨hq ▸ hm, by simp [Ne.symm hmid]⟩
        · simpa [hq] using hm

/-- The stability kernel for the recovered shape: once the record is reset,
the id is back on queue q and off the running set of q, every further
recovery step preserves all three. -/
theorem recoverOne_stable (s : TMState) (q2 m q id : String) (orig : TaskInfo)
    (h1 : s.infos id = some (resetInfo orig)) (h2 : id ∈ s.queues q)
    (h3 : id ∉ s.running q) :
    (recoverOne s q2 m).infos id = some (resetInfo orig) ∧
    id ∈ (recoverOne s q2 m).queues q ∧ id ∉ (recoverOne s q2 m).running q := by
  refine ⟨?_, recoverOne_queues_mem s q2 m q id h2, recoverOne_running_notmem s q2 m q id h3⟩
  rcases recoverOne_infos_form s q2 m id (resetInfo orig) (Or.inl h1) with h | h
  · exact h
  · rw [resetInfo_idem] at h
    exact h

/-- Recovery of a task whose record is present: the record is reset, the id
is back on queue q and off its running set. -/
theorem recoverOne_self (s : TMState) (q id : String) (info : TaskInfo)
    (h : s.infos id = some info) :
    (recoverOne s q id).infos id = some (resetInfo info) ∧
    id ∈ (recoverOne s q id).queues q ∧ id ∉ (recoverOne s q id).running q := by
  unfold recoverOne
  rw [h]
  refine ⟨?_, ?_, ?_⟩
  · simp [sremRunning, lpushQueue, setInfo]
  · simp [sremRunning, lpushQueue, setInfo]
  · simp only [sremRunning, lpushQueue, setInfo, if_pos rfl]
    intro hmem
    simpa using (List.mem_filter.mp hmem).2

/-- Stability of the recovered shape through a per-queue fold. -/
theorem foldl_recover_stable (q2 q id : String) (orig : TaskInfo) :
    ∀ (l : List String) (s : TMState),
      s.infos id = some (resetInfo orig) → id ∈ s.queues q → id ∉ s.running q →
      ((l.foldl (fun s m => recoverOne s q2 m) s).infos id = some (resetInfo orig) ∧
       id ∈ (l.foldl (fun s m => recoverOne s q2 m) s).queues q ∧
       id ∉ (l.foldl (fun s m => recoverOne s q2 m) s).running q)
  | [], s, h1, h2, h3 => ⟨h1, h2, h3⟩
  | m :: rest, s, h1, h2, h3 => by
      simp only [List.foldl_cons]
      have step := recoverOne_stable s q2 m q id orig h1 h2 h3
      exact foldl_recover_stable q2 q id orig rest (recoverOne s q2 m) step.1 step.2.1 step.2.2

/-- Record-form preservation through a per-queue fold. -/
theorem foldl_recover_form (q2 id : String) (orig : TaskInfo) :
    ∀ (l : List String) (s : TMState),
      (s.infos id = some orig ∨ s.infos id = some (resetInfo orig)) →
      ((l.foldl (fun s m => recoverOne s q2 m) s).infos id = some orig ∨
       (l.foldl (fun s m => recoverOne s q2 m) s).infos id = some (resetInfo orig))
  | [], _, h => h
  | m :: rest, s, h => by
      simp only [List.foldl_cons]
      exact foldl_recover_form q2 id orig rest (recoverOne s q2 m)
        (recoverOne_infos_form s q2 m id orig h)

/-- A per-queue fold on another queue never touches the running set of q. -/
theorem foldl_recover_running_other (q2 q : String) (hne : q2 ≠ q) :
    ∀ (l : List String) (s : TMState),
      (l.foldl (fun s m => recoverOne s q2 m) s).running q = s.running q
  | [], _ => rfl
  | m :: rest, s => by
      simp only [List.foldl_cons]
      rw [foldl_recover_running_other q2 q hne rest (recoverOne s q2 m),
        recoverOne_running_other s q2 m q hne]

/-- Establishment: folding the recovery body of queue q over a member list
containing id, starting from a record in original or reset form, leaves
the recovered shape. -/
theorem foldl_recover_establish (q id : String) (orig : TaskInfo) :
    ∀ (l : List String) (s : TMState),
      id ∈ l →
      (s.infos id = some orig ∨ s.infos id = some (resetInfo orig)) →
      ((l.foldl (fun s m => recoverOne s q m) s).infos id = some (resetInfo orig) ∧
       id ∈ (l.foldl (fun s m => recoverOne s q m) s).queues q ∧
       id ∉ (l.foldl (fun s m => recoverOne s q m) s).running q)
  | [], _, hmem, _ => absurd hmem (List.not_mem_nil _)
  | m :: rest, s, hmem, hform => by
      simp only [List.foldl_cons]
      by_cases hm : m = id
      · subst hm
        rcases hform with h | h
        · have hG := recoverOne_self s q m orig h
          exact foldl_recover_stable q q m orig rest _ hG.1 hG.2.1 hG.2.2
        · have hG := recoverOne_self s q m (resetInfo orig) h
          rw [resetInfo_idem] at hG
          exact foldl_recover_stable q q m orig rest _ hG.1 hG.2.1 hG.2.2
      · have hmem2 : id ∈ rest := by
          rcases List.mem_cons.mp hmem with h | h
          · exact absurd h.symm hm
          · exact h
        exact foldl_recover_establish q id orig rest (recoverOne s q m) hmem2
          (recoverOne_infos_form s q m id orig hform)

/-- An orphan keeps its absent record and running membership through a
per-queue fold. -/
theorem foldl_recover_orphan (q2 q id : String) :
    ∀ (l : List String) (s : TMState),
      s.infos id = none → id ∈ s.running q →
      ((l.foldl (fun s m => recoverOne s q2 m) s).infos id = none ∧
       id ∈ (l.foldl (fun s m => recoverOne s q2 m) s).running q)
  | [], _, h1, h2 => ⟨h1, h2⟩
  | m :: rest, s, h1, h2 => by
      simp only [List.foldl_cons]
      exact foldl_recover_orphan q2 q id rest (recoverOne s q2 m)
        (recoverOne_infos_none s q2 m id h1)
        (recoverOne_orphan_mem s q2 m q id h1 h2)

/-- Stability of the recovered shape through whole-manager recovery. -/
theorem recoverTasks_stable (q id : String) (orig : TaskInfo) :
    ∀ (qnames : List String) (s : TMState),
      s.infos id = some (resetInfo orig) → id ∈ s.queues q → id ∉ s.running q →
      ((recoverTasks qnames s).infos id = some (resetInfo orig) ∧
       id ∈ (recoverTasks qnames s).queues q ∧ id ∉ (recoverTasks qnames s).running q)
  | [], s, h1, h2, h3 => ⟨h1, h2, h3⟩
  | q0 :: rest, s, h1, h2, h3 => by
      simp only [recoverTasks, List.foldl_cons]
      have step := foldl_recover_stable q0 q id orig (s.running q0) s h1 h2 h3
      exact recoverTasks_stable q id orig rest (recoverQueue s q0) step.1 step.2.1 step.2.2

/-- Whole-manager recovery leaves an orphan in place: its record stays
absent and it stays in the running set of q. -/
theorem recoverTasks_orphan (q id : String) :
    ∀ (qnames : List String) (s : TMState),
      s.infos id = none → id ∈ s.running q →
      ((recoverTasks qnames s).infos id = none ∧
       id ∈ (recoverTasks qnames s).running q)
  | [], _, h1, h2 => ⟨h1, h2⟩
  | q0 :: rest, s, h1, h2 => by
      simp only [recoverTasks, List.foldl_cons]
      have step := foldl_recover_orphan q0 q id (s.running q0) s h1 h2
      exact recoverTasks_orphan q id rest (recoverQueue s q0) step.1 step.2

/-- Whole-manager recovery of a live record in the running set of a
configured queue ends in the recovered shape. -/
theorem recoverTasks_live (q id : String) (orig : TaskInfo) :
    ∀ (qnames : List String) (s : TMState),
      q ∈ qnames →
      (s.infos id = some orig ∨ s.infos id = some (resetInfo orig)) →
      id ∈ s.running q →
      ((recoverTasks qnames s).infos id = some (resetInfo orig) ∧
       id ∈ (recoverTasks qnames s).queues q ∧
       id ∉ (recoverTasks qnames s).running q)
  | [], _, hq, _, _ => absurd hq (List.not_mem_nil _)
  | q0 :: rest, s, hq, hform, hmem => by
      simp only [recoverTasks, List.foldl_cons]
      by_cases h0 : q0 = q
      · subst h0
        have hG := foldl_recover_establish q0 id orig (s.running q0) s hmem hform
        exact recoverTasks_stable q0 id orig rest (recoverQueue s q0) hG.1 hG.2.1 hG.2.2
      · have hq2 : q ∈ rest := by
          rcases List.mem_cons.mp hq with h | h
          · exact absurd h.symm h0
          · exact h
        have hform2 := foldl_recover_form q0 id orig (s.running q0) s hform
        have hrun := foldl_recover_running_other q0 q h0 (s.running q0) s
        exact recoverTasks_live q id orig rest (recoverQueue s q0) hq2 hform2 (by
          show id ∈ (recoverQueue s q0).running q
          rw [show (recoverQueue s q0).running q = s.running q from hrun]
          exact hmem)

/-- Counterexample to claim C2 as stated: an id in the running-set whose
record has expired is not removed at recovery; _recover_tasks has no else
branch, so the orphan survives. -/
theorem c2_recovery_counterexample :
    tmOrphanState.infos "t1" = none ∧
    "t1" ∈ (recoverTasks ["q1"] tmOrphanState).running "q1" := by
  refine ⟨rfl, ?_⟩
  decide

/-- Claim C2 amended: at manager init, for a configured queue and an id in
its running set, a still-existing record is reset to pending with
started_at cleared, LPUSHed back onto the queue and removed from the
running set; an expired record leaves the orphaned id in the running set
untouched. -/
theorem c2_recovery_amended (qnames : List String) (q id : String) (st : TMState)
    (hq : q ∈ qnames) (hmem : id ∈ st.running q) :
    (∀ info, st.infos id = some info →
       ((recoverTasks qnames st).infos id = some (resetInfo info) ∧
        id ∈ (recoverTasks qnames st).queues q ∧
        id ∉ (recoverTasks qnames st).running q)) ∧
    (st.infos id = none →
       ((recoverTasks qnames st).infos id = none ∧
        id ∈ (recoverTasks qnames st).running q)) :=
  ⟨fun info hinfo => recoverTasks_live q id info qnames st hq (Or.inl hinfo) hmem,
   fun hnone => recoverTasks_orphan q id qnames st hnone hmem⟩

/-- Witness for the amended C2 at a concrete one-queue state with a live
running record. -/
theorem c2_recovery_amended_witness :
    (recoverTasks ["q1"] tmLiveState).infos "t1" = some (resetInfo tmLiveInfo) ∧
    "t1" ∈ (recoverTasks ["q1"] tmLiveState).queues "q1" ∧
    "t1" ∉ (recoverTasks ["q1"] tmLiveState).running "q1" :=
  (c2_recovery_amended ["q1"] "q1" "t1" tmLiveState (by decide) (by decide)).1
    tmLiveInfo rfl

/-- Counterexample to claim C3 as stated: a first-attempt unknown-function
failure under max_tries 3 enters retrying and schedules a requeue, instead
of becoming terminally failed without requeue. -/
theorem c3_unknown_function_counterexample :
    (executeTaskUnresolved ["tasks.scene_drawing"] [1, 2]
        { taskId := "t1", queueName := "q1", functionName := "tasks.nope" } 100).1.status
      = TaskStatus.retrying ∧
    (executeTaskUnresolved ["tasks.scene_drawing"] [1, 2]
        { taskId := "t1", queueName := "q1", functionName := "tasks.nope" } 100).2
      = some 1 := by
  constructor <;> rfl

/-- Claim C3 amended: an unresolvable function name records an explanatory
AttributeError on the record, but the failure is handled by the generic
retry path: while retry_count + 1 is below max_tries the task enters
retrying with a scheduled requeue delay; only once retries are exhausted
(for instance max_tries of one) is it marked terminally failed with
completed_at set and no requeue. -/
theorem c3_unknown_function_amended (available : List String) (retryDelays : List Nat)
    (info : TaskInfo) (now : Nat) (hun : info.functionName ∉ available) :
    ((executeTaskUnresolved available retryDelays info now).1.error =
       some ("AttributeError: Function '" ++ info.functionName ++ "' not found")) ∧
    (info.retryCount + 1 < info.maxTries →
       (executeTaskUnresolved available retryDelays info now).1.status = TaskStatus.retrying ∧
       (executeTaskUnresolved available retryDelays info now).2 =
         some (pickRetryDelay retryDelays (info.retryCount + 1))) ∧
    (¬ info.retryCount + 1 < info.maxTries →
       (executeTaskUnresolved available retryDelays info now).1.status = TaskStatus.failed ∧
       (executeTaskUnresolved available retryDelays info now).1.completedAt = some now ∧
       (executeTaskUnresolved available retryDelays info now).2 = none) := by
  unfold executeTaskUnresolved callFunctionResolve handleTaskFailure
  rw [if_neg hun]
  by_cases hrc : info.retryCount + 1 < info.maxTries
  · simp [hrc]
  · simp [hrc]

/-- Witness for the amended C3 at a concrete unknown-function record with
retries left. -/
theorem c3_unknown_function_amended_witness :
    (executeTaskUnresolved ["tasks.scene_drawing"] [1, 2]
        { taskId := "t9", queueName := "q1", functionName := "tasks.missing" } 7).1.status
      = TaskStatus.retrying ∧
    (executeTaskUnresolved ["tasks.scene_drawing"] [1, 2]
        { taskId := "t9", queueName := "q1", functionName := "tasks.missing" } 7).2
      = some (pickRetryDelay [1, 2] 1) :=
  (c3_unknown_function_amended ["tasks.scene_drawing"] [1, 2]
    { taskId := "t9", queueName := "q1", functionName := "tasks.missing" } 7
    (by decide)).2.1 (by decide)

/-- Counterexample to claim C4 as stated: submitting for a key whose handle
is already settled submits a second task-manager task for that key, with
no intervening clear. -/
theorem c4_submit_counterexample :
    (trackerSubmit (trackerSetResult (trackerSubmit trackerEmpty "k" "tid1" "q")
        "k" (PyVal.int 1)) "k" "tid2" "q").submitted
      = [("k", "tid1"), ("k", "tid2")] := rfl

/-- Claim C4 amended: submit returns the existing handle and submits
nothing only when the key is tracked and not yet settled; on a settled key
it submits a fresh task and replaces the handle with a new pending one. -/
theorem c4_submit_amended (st : TrackerState) (key freshId q : String) :
    (∀ r, st.resources key = some r → r.outcome = none →
       trackerSubmit st key freshId q = st) ∧
    (∀ r, st.resources key = some r → r.outcome.isSome →
       ((trackerSubmit st key freshId q).submitted = st.submitted ++ [(key, freshId)] ∧
        (trackerSubmit st key freshId q).resources key =
          some { taskId := some freshId, queue := some q, outcome := none })) := by
  constructor
  · intro r hr ho
    simp [trackerSubmit, hr, ho]
  · intro r hr ho
    have hno : r.outcome.isNone = false := by
      rcases Option.isSome_iff_exists.mp ho with ⟨x, hx⟩
      simp [hx]
    constructor
    · simp [trackerSubmit, hr, hno]
    · simp [trackerSubmit, hr, hno]

/-- Witness for the amended C4: submit on a tracked pending key is the
identity. -/
theorem c4_submit_amended_witness :
    trackerSubmit (trackerSubmit trackerEmpty "k" "t1" "q") "k" "t2" "q"
      = trackerSubmit trackerEmpty "k" "t1" "q" :=
  (c4_submit_amended (trackerSubmit trackerEmpty "k" "t1" "q") "k" "t2" "q").1
    { taskId := some "t1", queue := some "q", outcome := none } rfl rfl

/-- set_result on an already settled key is a no-op on the whole state. -/
theorem trackerSetResult_settled (st : TrackerState) (key : String) (v : PyVal)
    (r : TrackedRes) (hres : st.resources key = some r) (ho : r.outcome.isSome) :
    trackerSetResult st key v = st := by
  rcases Option.isSome_iff_exists.mp ho with ⟨x, hx⟩
  simp [trackerSetResult, trackerRegister, hres, hx]

/-- set_exception on an already settled key is a no-op on the whole
state. -/
theorem trackerSetException_settled (st : TrackerState) (key msg : String)
    (r : TrackedRes) (hres : st.resources key = some r) (ho : r.outcome.isSome) :
    trackerSetException st key msg = st := by
  rcases Option.isSome_iff_exists.mp ho with ⟨x, hx⟩
  simp [trackerSetException, trackerRegister, hres, hx]

/-- The poll loop leaves a settled resource untouched. -/
theorem pollResource_settled (table : String → Option TaskInfo) (r : TrackedRes)
    (ho : r.outcome.isSome) : pollResource table r = r := by
  unfold pollResource
  cases r.taskId with
  | none => rfl
  | some tid => simp [ho]

/-- set_result never touches another key's resource. -/
theorem trackerSetResult_resources_other (st : TrackerState) (k key : String) (v : PyVal)
    (h : key ≠ k) : (trackerSetResult st k v).resources key = st.resources key := by
  unfold trackerSetResult trackerRegister
  cases hres : st.resources k with
  | some r =>
      simp only [hres]
      cases hio : r.outcome.isNone <;> simp [hio, h]
  | none => simp [hres, h]

/-- set_exception never touches another key's resource. -/
theorem trackerSetException_resources_other (st : TrackerState) (k key msg : String)
    (h : key ≠ k) : (trackerSetException st k msg).resources key = st.resources key := by
  unfold trackerSetException trackerRegister
  cases hres : st.resources k with
  | some r =>
      simp only [hres]
      cases hio : r.outcome.isNone <;> simp [hio, h]
  | none => simp [hres, h]

/-- One settle-bearing operation preserves an existing settlement. -/
theorem applySettleOp_preserves (op : SettleOp) (st : TrackerState) (key : String)
    (o : Except String PyVal) (h : outcomeOf st key = some o) :
    outcomeOf (applySettleOp st op) key = some o := by
  obtain ⟨r, hres, ho⟩ : ∃ r, st.resources key = some r ∧ r.outcome = some o := by
    unfold outcomeOf at h
    cases hres : st.resources key with
    | none => rw [hres] at h; cases h
    | some r => rw [hres] at h; exact ⟨r, rfl, h⟩
  have hsome : r.outcome.isSome := by simp [ho]
  cases op with
  | setRes k v =>
      by_cases hk : key = k
      · subst hk
        show outcomeOf (trackerSetResult st key v) key = some o
        rw [trackerSetResult_settled st key v r hres hsome]
        simp [outcomeOf, hres, ho]
      · show outcomeOf (trackerSetResult st k v) key = some o
        unfold outcomeOf
        rw [trackerSetResult_resources_other st k key v hk, hres]
        simp [ho]
  | setExc k m =>
      by_cases hk : key = k
      · subst hk
        show outcomeOf (trackerSetException st key m) key = some o
        rw [trackerSetException_settled st key m r hres hsome]
        simp [outcomeOf, hres, ho]
      · show outcomeOf (trackerSetException st k m) key = some o
        unfold outcomeOf
        rw [trackerSetException_resources_other st k key m hk, hres]
        simp [ho]
  | poll table =>
      show outcomeOf (trackerPoll table st) key = some o
      unfold outcomeOf trackerPoll
      simp only [hres]
      show (pollResource table r).outcome = some o
      rw [pollResource_settled table r hsome]
      exact ho

/-- Claim C5: across set_result, set_exception and poll-loop settlement, a
settled key keeps its first settlement through any further operation
sequence, and get on the settled key answers from that same cached
outcome (its value, or the default for an error) for every awaiter. -/
theorem c5_at_most_one_settle (ops : List SettleOp) (st : TrackerState) (key : String)
    (o : Except String PyVal) (h : outcomeOf st key = some o) :
    outcomeOf (applySettleOps st ops) key = some o ∧
    (∀ v, o = Except.ok v → ∀ d, trackerGetSettled (applySettleOps st ops) key d = some v) ∧
    (∀ msg, o = Except.error msg →
      ∀ d, trackerGetSettled (applySettleOps st ops) key d = some d) := by
  have hpres : outcomeOf (applySettleOps st ops) key = some o := by
    induction ops generalizing st with
    | nil => exact h
    | cons op rest ih => exact ih (applySettleOp st op) (applySettleOp_preserves op st key o h)
  obtain ⟨r, hres2, hro⟩ :
      ∃ r, (applySettleOps st ops).resources key = some r ∧ r.outcome = some o := by
    unfold outcomeOf at hpres
    cases hres2 : (applySettleOps st ops).resources key with
    | none => rw [hres2] at hpres; cases hpres
    | some r => rw [hres2] at hpres; exact ⟨r, rfl, hpres⟩
  refine ⟨hpres, ?_, ?_⟩
  · intro v hv d
    subst hv
    simp only [trackerGetSettled, hres2, hro]
  · intro msg hm d
    subst hm
    simp only [trackerGetSettled, hres2, hro]

/-- Witness for C5: a directly settled key survives a later set_result and
set_exception, and get returns the cached value. -/
theorem c5_at_most_one_settle_witness :
    outcomeOf (applySettleOps (trackerSetResult trackerEmpty "k" (PyVal.int 7))
        [SettleOp.setRes "k" (PyVal.int 9), SettleOp.setExc "k" "boom"]) "k"
      = some (Except.ok (PyVal.int 7)) ∧
    trackerGetSettled (applySettleOps (trackerSetResult trackerEmpty "k" (PyVal.int 7))
        [SettleOp.setRes "k" (PyVal.int 9), SettleOp.setExc "k" "boom"]) "k" PyVal.null
      = some (PyVal.int 7) :=
  ⟨(c5_at_most_one_settle [SettleOp.setRes "k" (PyVal.int 9), SettleOp.setExc "k" "boom"]
      (trackerSetResult trackerEmpty "k" (PyVal.int 7)) "k" (Except.ok (PyVal.int 7)) rfl).1,
   (c5_at_most_one_settle [SettleOp.setRes "k" (PyVal.int 9), SettleOp.setExc "k" "boom"]
      (trackerSetResult trackerEmpty "k" (PyVal.int 7)) "k" (Except.ok (PyVal.int 7)) rfl).2.1
     (PyVal.int 7) rfl PyVal.null⟩

/-- Every event a single scene-dispatch step emits is scene-level: never a
story bracket. -/
theorem processSceneStep_no_bracket (deps : EngineDeps) (si : SceneInfoM)
    (eventIndex : String) (x : XmlEvent) :
    ∀ e ∈ (processSceneStep deps si eventIndex x).1,
      eventType e ≠ "story_start" ∧ eventType e ≠ "story_end" := by
  unfold processSceneStep
  split_ifs with h1 h2 h3 h4
  · intro e he
    simp only [List.mem_singleton] at he
    subst he
    exact ⟨by simp [eventType], by simp [eventType]⟩
  · intro e he
    simp only [List.mem_singleton] at he
    subst he
    exact ⟨by simp [eventType], by simp [eventType]⟩
  · intro e he
    simp only [List.mem_singleton] at he
    subst he
    exact ⟨by simp [eventType], by simp [eventType]⟩
  · cases deps.narrationVoice with
    | some v =>
        intro e he
        simp only [List.mem_singleton] at he
        subst he
        exact ⟨by simp [eventType], by simp [eventType]⟩
    | none =>
        intro e he
        simp only [List.mem_singleton] at he
        subst he
        exact ⟨by simp [eventType], by simp [eventType]⟩
  · intro e he
    exact absurd he (List.not_mem_nil e)

/-- No story bracket is emitted anywhere inside a scene. -/
theorem processSceneFrom_no_bracket (deps : EngineDeps) (si : SceneInfoM) :
    ∀ (xs : List XmlEvent) (idx : Nat), ∀ e ∈ (processSceneFrom deps si idx xs).1,
      eventType e ≠ "story_start" ∧ eventType e ≠ "story_end"
  | [], _, e, he => absurd he (List.not_mem_nil e)
  | x :: xs, idx, e, he => by
      simp only [processSceneFrom, List.mem_append] at he
      rcases he with he | he
      · exact processSceneStep_no_bracket deps si (si.index ++ toString (idx + 1)) x e he
      · exact processSceneFrom_no_bracket deps si xs (idx + 1) e he

/-- No storylet-loop iteration emits a story bracket. -/
theorem runEngineStep_no_bracket (deps : EngineDeps) (sceneXml : SceneInfoM → List XmlEvent) :
    ∀ (item : Storylet), ∀ e ∈ runEngineStep deps sceneXml item,
      eventType e ≠ "story_start" ∧ eventType e ≠ "story_end"
  | .story _, e, he => absurd he (List.not_mem_nil e)
  | .sequence i t, e, he => by
      simp only [runEngineStep, List.mem_singleton] at he
      subst he
      exact ⟨by simp [eventType], by simp [eventType]⟩
  | .scene si, e, he =>
      processSceneFrom_no_bracket deps si (sceneXml si) 0 e he

/-- Claim C10: a completing run emits exactly one StoryStart, first, and
exactly one StoryEnd, last; neither type occurs anywhere else. -/
theorem c10_story_bracketing (deps : EngineDeps) (sceneXml : SceneInfoM → List XmlEvent)
    (title : Option String) (storylets : List Storylet) :
    (runEngine deps sceneXml title storylets).head? =
      some (NarrativeEvent.storyStart "story_start" (title.getD "故事开始")) ∧
    (runEngine deps sceneXml title storylets).getLast? =
      some (NarrativeEvent.storyEnd "story_end") ∧
    ((runEngine deps sceneXml title storylets).filter
        (fun e => eventType e == "story_start")).length = 1 ∧
    ((runEngine deps sceneXml title storylets).filter
        (fun e => eventType e == "story_end")).length = 1 := by
  have hmid : ∀ e ∈ storylets.flatMap (runEngineStep deps sceneXml),
      eventType e ≠ "story_start" ∧ eventType e ≠ "story_end" := by
    intro e he
    rcases List.mem_flatMap.mp he with ⟨item, _, hmem⟩
    exact runEngineStep_no_bracket deps sceneXml item e hmem
  have hfilter_start : (storylets.flatMap (runEngineStep deps sceneXml)).filter
      (fun e => eventType e == "story_start") = [] := by
    rw [List.filter_eq_nil_iff]
    intro e he
    simp [(hmid e he).1]
  have hfilter_end : (storylets.flatMap (runEngineStep deps sceneXml)).filter
      (fun e => eventType e == "story_end") = [] := by
    rw [List.filter_eq_nil_iff]
    intro e he
    simp [(hmid e he).2]
  refine ⟨rfl, ?_, ?_, ?_⟩
  · show (NarrativeEvent.storyStart "story_start" (title.getD "故事开始") ::
      (storylets.flatMap (runEngineStep deps sceneXml) ++
        [NarrativeEvent.storyEnd "story_end"])).getLast? = _
    rw [show (NarrativeEvent.storyStart "story_start" (title.getD "故事开始") ::
      (storylets.flatMap (runEngineStep deps sceneXml) ++
        [NarrativeEvent.storyEnd "story_end"])) =
      (NarrativeEvent.storyStart "story_start" (title.getD "故事开始") ::
        storylets.flatMap (runEngineStep deps sceneXml)) ++
        [NarrativeEvent.storyEnd "story_end"] from by simp]
    rw [List.getLast?_concat]
  · show ((NarrativeEvent.storyStart "story_start" (title.getD "故事开始") ::
      (storylets.flatMap (runEngineStep deps sceneXml) ++
        [NarrativeEvent.storyEnd "story_end"])).filter
          (fun e => eventType e == "story_start")).length = 1
    rw [List.filter_cons, List.filter_append, hfilter_start]
    simp [eventType]
  · show ((NarrativeEvent.storyStart "story_start" (title.getD "故事开始") ::
      (storylets.flatMap (runEngineStep deps sceneXml) ++
        [NarrativeEvent.storyEnd "story_end"])).filter
          (fun e => eventType e == "story_end")).length = 1
    rw [List.filter_cons, List.filter_append, hfilter_end]
    simp [eventType]

/-- Claim C8, code_bug record: the event the engine emits for a sound
element is the producer's SoundEvent variant (event_type "sound", carrying
description and sound_key; the variant has no channel field), while the
Audio event class named by the spec and by every consumer is absent from
engine.producer: the consumer's import list asks for AudioEvent, which the
producer does not define. -/
theorem c8_sound_event_shape :
    (processScene depsExample { index := "11", title := "t", location := "lab", time := "night" }
        [{ kind := "end", tag := "sound", text := "爆炸声" }]).1
      = [NarrativeEvent.sound "sound_111" "爆炸声" (some "sound_111")] ∧
    eventType (NarrativeEvent.sound "sound_111" "爆炸声" (some "sound_111")) = "sound" ∧
    "AudioEvent" ∈ streamImportedNames ∧ "AudioEvent" ∉ producerDefinedClasses := by
  exact ⟨rfl, rfl, by decide, by decide⟩

/-- Claim C1, code_bug record: StreamingConsumer.stream resolves AudioEvent
from engine.producer before pumping any event; the name does not exist
there, so the run raises ImportError and yields none of the producer's
events. -/
theorem c1_stream_import_failure :
    streamRun (fun _ => none) [NarrativeEvent.storyStart "story_start" "t"]
      = Except.error "ImportError: cannot import name AudioEvent from engine.producer" ∧
    "AudioEvent" ∈ streamImportedNames ∧ "AudioEvent" ∉ producerDefinedClasses := by
  exact ⟨rfl, by decide, by decide⟩

/-- The decimal digit character of k below ten carries k and is a digit. -/
theorem digitChar_spec (k : Nat) (h : k < 10) :
    (Char.ofNat (48 + k)).toNat = 48 + k ∧ isDigitC (Char.ofNat (48 + k)) = true := by
  interval_cases k <;> exact ⟨by decide, by decide⟩

/-- A rendered natural has at least one digit. -/
theorem natChars_ne_nil (n : Nat) : natChars n ≠ [] := by
  rw [natChars.eq_def]
  split
  · simp
  · simp

/-- Every character of a rendered natural is a digit. -/
theorem natChars_digits (n : Nat) : ∀ c ∈ natChars n, isDigitC c = true := by
  induction n using Nat.strongRecOn with
  | _ n ih =>
    rw [natChars.eq_def]
    split
    · rename_i h
      intro c hc
      rw [List.mem_singleton] at hc
      subst hc
      exact (digitChar_spec n h).2
    · rename_i h
      intro c hc
      rw [List.mem_append] at hc
      rcases hc with hc | hc
      · exact ih (n / 10) (by omega) c hc
      · rw [List.mem_singleton] at hc
        subst hc
        exact (digitChar_spec (n % 10) (by omega)).2

/-- Appending one digit multiplies the accumulated value by ten. -/
theorem digitsVal_append_one (ds : List Char) (c : Char) :
    digitsVal (ds ++ [c]) = digitsVal ds * 10 + (c.toNat - 48) := by
  unfold digitsVal
  rw [List.foldl_append]
  rfl

/-- Reading back a rendered natural recovers it. -/
theorem digitsVal_natChars (n : Nat) : digitsVal (natChars n) = n := by
  induction n using Nat.strongRecOn with
  | _ n ih =>
    rw [natChars.eq_def]
    split
    · rename_i h
      simp [digitsVal, (digitChar_spec n h).1]
    · rename_i h
      rw [digitsVal_append_one, ih (n / 10) (by omega), (digitChar_spec (n % 10) (by omega)).1]
      omega

/-- Digit characters sit in the ASCII digit range. -/
theorem isDigitC_bounds {c : Char} (h : isDigitC c = true) : 48 ≤ c.toNat ∧ c.toNat ≤ 57 := by
  simp [isDigitC] at h
  exact h

/-- A digit character is no whitespace and none of the JSON structural or
literal-start characters. -/
theorem digit_char_facts {c : Char} (h : isDigitC c = true) :
    isWsC c = false ∧ c ≠ '-' ∧ c ≠ 'n' ∧ c ≠ 't' ∧ c ≠ 'f' ∧ c ≠ '"' ∧
    c ≠ '[' ∧ c ≠ '{' ∧ c ≠ ']' ∧ c ≠ '}' ∧ c ≠ ',' ∧ c ≠ ':' ∧ c ≠ '\\' := by
  refine ⟨?_, ?_, ?_, ?_, ?_, ?_, ?_, ?_, ?_, ?_, ?_, ?_, ?_⟩
  · cases hc : isWsC c
    · rfl
    · exfalso
      simp only [isWsC, Bool.or_eq_true, beq_iff_eq] at hc
      rcases hc with ((rfl | rfl) | rfl) | rfl <;> exact absurd h (by decide)
  all_goals (intro he; subst he; exact absurd h (by decide))

/-- The digit scanner stops immediately on a non-digit head. -/
theorem takeDigitsL_stop (cs : List Char)
    (h : ∀ c0, cs.head? = some c0 → isDigitC c0 = false) :
    takeDigitsL cs = ([], cs) := by
  cases cs with
  | nil => rfl
  | cons c t =>
      have hc := h c rfl
      simp [takeDigitsL, hc]

/-- The digit scanner consumes exactly a digit run when the remainder does
not begin with a digit. -/
theorem takeDigitsL_run (ds : List Char) (hds : ∀ c ∈ ds, isDigitC c = true)
    (rest : List Char) (hrest : ∀ c0, rest.head? = some c0 → isDigitC c0 = false) :
    takeDigitsL (ds ++ rest) = (ds, rest) := by
  induction ds with
  | nil => simpa using takeDigitsL_stop rest hrest
  | cons c t ih =>
      have ht := ih fun x hx => hds x (List.mem_cons_of_mem c hx)
      simp only [List.cons_append, takeDigitsL,
        hds c (List.mem_cons_self c t), if_true, List.append_eq, ht]

/-- A rendered natural starts with a digit character. -/
theorem natChars_cons (m : Nat) : ∃ c t, natChars m = c :: t ∧ isDigitC c = true := by
  cases hm : natChars m with
  | nil => exact absurd hm (natChars_ne_nil m)
  | cons c t => exact ⟨c, t, rfl, natChars_digits m c (hm ▸ List.mem_cons_self c t)⟩

/-- The integer token reader inverts integer rendering when the remainder
does not begin with a digit. -/
theorem parseIntToken_intChars (i : Int) (rest : List Char)
    (hrest : ∀ c0, rest.head? = some c0 → isDigitC c0 = false) :
    parseIntToken (intChars i ++ rest) = some (i, rest) := by
  by_cases hi : i < 0
  · have harg : intChars i ++ rest = '-' :: (natChars i.natAbs ++ rest) := by
      simp [intChars, hi]
    rw [harg]
    simp only [parseIntToken, if_pos rfl]
    rw [takeDigitsL_run (natChars i.natAbs) (natChars_digits _) rest hrest]
    have hne : (natChars i.natAbs).isEmpty = false := by
      cases hm : natChars i.natAbs with
      | nil => exact absurd hm (natChars_ne_nil _)
      | cons c t => rfl
    have hval : -(digitsVal (natChars i.natAbs) : Int) = i := by
      rw [digitsVal_natChars]
      omega
    simp [hne, hval]
  · obtain ⟨c, t, hnat, hc⟩ := natChars_cons i.natAbs
    have harg : intChars i ++ rest = c :: (t ++ rest) := by
      simp [intChars, hi, hnat]
    rw [harg]
    simp only [parseIntToken]
    rw [if_neg (digit_char_facts hc).2.1]
    have htd : takeDigitsL (c :: (t ++ rest)) = (c :: t, rest) := by
      have hrun := takeDigitsL_run (c :: t) (by rw [← hnat]; exact natChars_digits _) rest hrest
      simpa using hrun
    simp only [htd]
    have hdv : digitsVal (c :: t) = i.natAbs := by rw [← hnat, digitsVal_natChars]
    simp [hdv]
    omega

/-- Hex digit characters decode to their value. -/
theorem hexValOf_hexDigitChar (d : Nat) (h : d < 16) :
    hexValOf (hexDigitChar d) = some d := by
  interval_cases d <;> decide

/-- Decoding one escaped character prepends exactly that character. -/
theorem parseStrBody_escape (c : Char) (l : List Char) :
    parseStrBody (pyEscapeChar c ++ l) =
      (parseStrBody l).map (fun p => (c :: p.1, p.2)) := by
  unfold pyEscapeChar
  split_ifs with h1 h2 h3 h4 h5 h6 h7 h8
  · subst h1; rw [parseStrBody.eq_def]; simp [unescapeOf]
  · subst h2; rw [parseStrBody.eq_def]; simp [unescapeOf]
  · subst h3; rw [parseStrBody.eq_def]; simp [unescapeOf]
  · subst h4; rw [parseStrBody.eq_def]; simp [unescapeOf]
  · subst h5; rw [parseStrBody.eq_def]; simp [unescapeOf]
  · have hc : c = Char.ofNat 8 := by rw [← Char.ofNat_toNat c, h6]
    subst hc
    rw [parseStrBody.eq_def]
    simp [unescapeOf]
  · have hc : c = Char.ofNat 12 := by rw [← Char.ofNat_toNat c, h7]
    subst hc
    rw [parseStrBody.eq_def]
    simp [unescapeOf]
  · have e1 := hexValOf_hexDigitChar (c.toNat / 4096 % 16) (Nat.mod_lt _ (by omega))
    have e2 := hexValOf_hexDigitChar (c.toNat / 256 % 16) (Nat.mod_lt _ (by omega))
    have e3 := hexValOf_hexDigitChar (c.toNat / 16 % 16) (Nat.mod_lt _ (by omega))
    have e4 := hexValOf_hexDigitChar (c.toNat % 16) (Nat.mod_lt _ (by omega))
    have harith : ∀ t : Nat, t < 32 →
        ((t / 4096 % 16 * 16 + t / 256 % 16) * 16 + t / 16 % 16) * 16 + t % 16 = t :=
      fun t _ => by omega
    rw [parseStrBody.eq_def]
    simp [e1, e2, e3, e4, harith c.toNat h8, Char.ofNat_toNat]
  · rw [parseStrBody.eq_def]
    simp [h1, h2, h8]

/-- Decoding a rendered string body stops exactly at the closing quote. -/
theorem parseStrBody_flatMap (cs : List Char) : ∀ (l : List Char),
    parseStrBody (cs.flatMap pyEscapeChar ++ '"' :: l) = some (cs, l) := by
  induction cs with
  | nil =>
      intro l
      rw [List.flatMap_nil, List.nil_append, parseStrBody.eq_def]
      simp
  | cons c t ih =>
      intro l
      rw [List.flatMap_cons, List.append_assoc, parseStrBody_escape, ih]
      rfl

/-- skipWs is the identity on a non-whitespace head. -/
theorem skipWsL_not_ws {c : Char} (t : List Char) (h : isWsC c = false) :
    skipWsL (c :: t) = c :: t := by
  simp [skipWsL, h]

/-- skipWs absorbs a leading space. -/
theorem skipWsL_space (x : List Char) : skipWsL (' ' :: x) = skipWsL x := by
  simp [skipWsL, isWsC]

/-- A dumped value starts with a significant character that closes no
array or object. -/
theorem dumpChars_head (v : PyVal) :
    ∃ c t, dumpChars v = c :: t ∧ isWsC c = false ∧ c ≠ ']' ∧ c ≠ '}' := by
  cases v with
  | int n =>
      by_cases hn : n < 0
      · refine ⟨'-', natChars n.natAbs, ?_, by decide, by decide, by decide⟩
        show intChars n = _
        simp [intChars, hn]
      · obtain ⟨c, t, hnat, hc⟩ := natChars_cons n.natAbs
        have hf := digit_char_facts hc
        refine ⟨c, t, ?_, hf.1, hf.2.2.2.2.2.2.2.2.1, hf.2.2.2.2.2.2.2.2.2.1⟩
        show intChars n = _
        simp [intChars, hn, hnat]
  | bool b =>
      cases b
      case false => refine ⟨'f', _, rfl, ?_, ?_, ?_⟩ <;> decide
      case true => refine ⟨'t', _, rfl, ?_, ?_, ?_⟩ <;> decide
  | null => refine ⟨'n', _, rfl, ?_, ?_, ?_⟩ <;> decide
  | str s => refine ⟨'"', _, rfl, ?_, ?_, ?_⟩ <;> decide
  | list items => refine ⟨'[', _, rfl, ?_, ?_, ?_⟩ <;> decide
  | dict entries => refine ⟨'{', _, rfl, ?_, ?_, ?_⟩ <;> decide

/-- The value parser ignores a leading space. -/
theorem parseJsonVal_ws (fuel : Nat) (x : List Char) :
    parseJsonVal fuel (' ' :: x) = parseJsonVal fuel x := by
  cases fuel with
  | zero => rfl
  | succ f => simp only [parseJsonVal, skipWsL_space]

/-- The item parser ignores a leading space. -/
theorem parseListItems_ws (fuel : Nat) (x : List Char) :
    parseListItems fuel (' ' :: x) = parseListItems fuel x := by
  cases fuel with
  | zero => rfl
  | succ f => simp only [parseListItems, parseJsonVal_ws]

/-- The member parser ignores a leading space. -/
theorem parseDictItems_ws (fuel : Nat) (x : List Char) :
    parseDictItems fuel (' ' :: x) = parseDictItems fuel x := by
  cases fuel with
  | zero => rfl
  | succ f => simp only [parseDictItems, skipWsL_space]

/-- A minus sign or digit head sends the value parser to the integer
token reader. -/
theorem parseJsonVal_int_step (fuel : Nat) (c : Char) (r : List Char)
    (h : c = '-' ∨ isDigitC c = true) :
    parseJsonVal (fuel + 1) (c :: r)
      = (parseIntToken (c :: r)).map (fun p => (PyVal.int p.1, p.2)) := by
  rcases h with rfl | hd
  · simp only [parseJsonVal]
    rw [skipWsL_not_ws r (by decide)]
    simp
  · obtain ⟨hws, hminus, hn, ht, hf, hq, hlb, hcb, _⟩ := digit_char_facts hd
    simp only [parseJsonVal]
    rw [skipWsL_not_ws r hws]
    simp [hn, ht, hf, hq, hlb, hcb, hminus, hd]

mutual
/-- The value codec round trip: with fuel beyond the dumped length, parsing
a dumped value consumes exactly it, whenever the remainder does not begin
with a digit. -/
theorem rt_val : ∀ (v : PyVal) (fuel : Nat) (rest : List Char),
    (dumpChars v).length < fuel →
    (∀ c0, rest.head? = some c0 → isDigitC c0 = false) →
    parseJsonVal fuel (dumpChars v ++ rest) = some (v, rest)
  | .null, fuel, rest, hf, _ => by
      cases fuel with
      | zero => exact absurd hf (Nat.not_lt_zero _)
      | succ f =>
          show parseJsonVal (f + 1) (['n', 'u', 'l', 'l'] ++ rest) = _
          simp only [parseJsonVal, List.cons_append, List.nil_append]
          rw [skipWsL_not_ws _ (by decide)]
          simp [expectChars]
  | .bool true, fuel, rest, hf, _ => by
      cases fuel with
      | zero => exact absurd hf (Nat.not_lt_zero _)
      | succ f =>
          show parseJsonVal (f + 1) (['t', 'r', 'u', 'e'] ++ rest) = _
          simp only [parseJsonVal, List.cons_append, List.nil_append]
          rw [skipWsL_not_ws _ (by decide)]
          simp [expectChars]
  | .bool false, fuel, rest, hf, _ => by
      cases fuel with
      | zero => exact absurd hf (Nat.not_lt_zero _)
      | succ f =>
          show parseJsonVal (f + 1) (['f', 'a', 'l', 's', 'e'] ++ rest) = _
          simp only [parseJsonVal, List.cons_append, List.nil_append]
          rw [skipWsL_not_ws _ (by decide)]
          simp [expectChars]
  | .int n, fuel, rest, hf, hrest => by
      cases fuel with
      | zero => exact absurd hf (Nat.not_lt_zero _)
      | succ f =>
          have hhead : ∃ c t, intChars n = c :: t ∧ (c = '-' ∨ isDigitC c = true) := by
            by_cases hn : n < 0
            · exact ⟨'-', natChars n.natAbs, by simp [intChars, hn], Or.inl rfl⟩
            · obtain ⟨c, t, hnat, hc⟩ := natChars_cons n.natAbs
              exact ⟨c, t, by simp [intChars, hn, hnat], Or.inr hc⟩
          obtain ⟨c, t, hi, hc⟩ := hhead
          show parseJsonVal (f + 1) (intChars n ++ rest) = some (.int n, rest)
          rw [hi, List.cons_append, parseJsonVal_int_step f c (t ++ rest) hc,
            ← List.cons_append, ← hi, parseIntToken_intChars n rest hrest]
          rfl
  | .str s, fuel, rest, hf, _ => by
      cases fuel with
      | zero => exact absurd hf (Nat.not_lt_zero _)
      | succ f =>
          obtain ⟨l⟩ := s
          show parseJsonVal (f + 1) (dumpStrChars ⟨l⟩ ++ rest) = _
          have harg : dumpStrChars ⟨l⟩ ++ rest
              = '"' :: (l.flatMap pyEscapeChar ++ '"' :: rest) := by
            simp [dumpStrChars]
          rw [harg]
          simp only [parseJsonVal]
          rw [skipWsL_not_ws _ (by decide)]
          simp [parseStrBody_flatMap]
  | .list [], fuel, rest, hf, _ => by
      cases fuel with
      | zero => exact absurd hf (Nat.not_lt_zero _)
      | succ f =>
          show parseJsonVal (f + 1) (('[' :: (dumpItemsChars [] ++ [']'])) ++ rest) = _
          simp [parseJsonVal, dumpItemsChars, skipWsL_not_ws, isWsC]
  | .list (v :: vs), fuel, rest, hf, _ => by
      cases fuel with
      | zero => exact absurd hf (Nat.not_lt_zero _)
      | succ f =>
          obtain ⟨c, t, hv, hws, hbr, _⟩ := dumpChars_head v
          have harg : dumpChars (.list (v :: vs)) ++ rest
              = '[' :: (dumpItemsChars (v :: vs) ++ ']' :: rest) := by
            show ('[' :: (dumpItemsChars (v :: vs) ++ [']'])) ++ rest = _
            simp
          have hshape : dumpItemsChars (v :: vs) ++ ']' :: rest
              = c :: (t ++ (dumpItemsSep vs ++ ']' :: rest)) := by
            show (dumpChars v ++ dumpItemsSep vs) ++ ']' :: rest = _
            rw [hv]
            simp
          have hlen : (dumpItemsChars (v :: vs)).length + 1 < f := by
            have hlist : (dumpChars (.list (v :: vs))).length
                = (dumpItemsChars (v :: vs)).length + 2 := by
              show ('[' :: (dumpItemsChars (v :: vs) ++ [']'])).length = _
              simp
            omega
          have hitems := rt_items v vs f rest hlen
          rw [hshape] at hitems
          rw [harg]
          simp only [parseJsonVal]
          rw [skipWsL_not_ws _ (by decide)]
          simp [hshape, skipWsL_not_ws, hws, hbr, hitems]
  | .dict [], fuel, rest, hf, _ => by
      cases fuel with
      | zero => exact absurd hf (Nat.not_lt_zero _)
      | succ f =>
          show parseJsonVal (f + 1) (('{' :: (dumpEntriesChars [] ++ ['}'])) ++ rest) = _
          simp [parseJsonVal, dumpEntriesChars, skipWsL_not_ws, isWsC]
  | .dict ((k, v) :: es), fuel, rest, hf, _ => by
      cases fuel with
      | zero => exact absurd hf (Nat.not_lt_zero _)
      | succ f =>
          have harg : dumpChars (.dict ((k, v) :: es)) ++ rest
              = '{' :: (dumpEntriesChars ((k, v) :: es) ++ '}' :: rest) := by
            show ('{' :: (dumpEntriesChars ((k, v) :: es) ++ ['}'])) ++ rest = _
            simp
          have hshape : dumpEntriesChars ((k, v) :: es) ++ '}' :: rest
              = '"' :: (k.data.flatMap pyEscapeChar
                  ++ '"' :: (':' :: ' ' :: (dumpChars v ++ (dumpEntriesSep es ++ '}' :: rest)))) := by
            show (dumpStrChars k ++ ':' :: ' ' :: (dumpChars v ++ dumpEntriesSep es))
                ++ '}' :: rest = _
            simp [dumpStrChars]
          have hlen : (dumpEntriesChars ((k, v) :: es)).length + 1 < f := by
            have hdict : (dumpChars (.dict ((k, v) :: es))).length
                = (dumpEntriesChars ((k, v) :: es)).length + 2 := by
              show ('{' :: (dumpEntriesChars ((k, v) :: es) ++ ['}'])).length = _
              simp
            omega
          have hentries := rt_entries k v es f rest hlen
          rw [hshape] at hentries
          rw [harg]
          simp only [parseJsonVal]
          rw [skipWsL_not_ws _ (by decide)]
          simp [hshape, skipWsL_not_ws, isWsC, hentries]
termination_by v fuel rest hf hrest => sizeOf v

/-- The item-list codec round trip up to the closing bracket. -/
theorem rt_items : ∀ (v : PyVal) (vs : List PyVal) (fuel : Nat) (rest : List Char),
    (dumpItemsChars (v :: vs)).length + 1 < fuel →
    parseListItems fuel (dumpItemsChars (v :: vs) ++ ']' :: rest) = some (v :: vs, rest)
  | v, [], fuel, rest, hf => by
      cases fuel with
      | zero => exact absurd hf (Nat.not_lt_zero _)
      | succ f =>
          have hsplit : dumpItemsChars (v :: ([] : List PyVal)) ++ ']' :: rest
              = dumpChars v ++ (']' :: rest) := by
            show (dumpChars v ++ dumpItemsSep []) ++ ']' :: rest = _
            simp [dumpItemsSep]
          have hlenv : (dumpChars v).length < f := by
            have hl : (dumpItemsChars (v :: ([] : List PyVal))).length
                = (dumpChars v).length := by
              show (dumpChars v ++ dumpItemsSep []).length = _
              simp [dumpItemsSep]
            omega
          have hrest2 : ∀ c0, (']' :: rest).head? = some c0 → isDigitC c0 = false := by
            intro c0 h0
            simp only [List.head?_cons, Option.some.injEq] at h0
            subst h0
            decide
          have hv := rt_val v f (']' :: rest) hlenv hrest2
          rw [hsplit]
          simp only [parseListItems]
          rw [hv]
          simp [skipWsL_not_ws, isWsC]
  | v, w :: ws, fuel, rest, hf => by
      cases fuel with
      | zero => exact absurd hf (Nat.not_lt_zero _)
      | succ f =>
          have hsep : dumpItemsSep (w :: ws) = ',' :: ' ' :: dumpItemsChars (w :: ws) := rfl
          have hsplit : dumpItemsChars (v :: w :: ws) ++ ']' :: rest
              = dumpChars v ++ (',' :: ' ' :: (dumpItemsChars (w :: ws) ++ ']' :: rest)) := by
            show (dumpChars v ++ dumpItemsSep (w :: ws)) ++ ']' :: rest = _
            rw [hsep]
            simp
          have hlens : (dumpItemsChars (v :: w :: ws)).length
              = (dumpChars v).length + 2 + (dumpItemsChars (w :: ws)).length := by
            show (dumpChars v ++ dumpItemsSep (w :: ws)).length = _
            rw [hsep]
            simp
            omega
          have hlenv : (dumpChars v).length < f := by omega
          have hlenw : (dumpItemsChars (w :: ws)).length + 1 < f := by omega
          have hrest2 : ∀ c0,
              (',' :: ' ' :: (dumpItemsChars (w :: ws) ++ ']' :: rest)).head? = some c0 →
              isDigitC c0 = false := by
            intro c0 h0
            simp only [List.head?_cons, Option.some.injEq] at h0
            subst h0
            decide
          have hv := rt_val v f (',' :: ' ' :: (dumpItemsChars (w :: ws) ++ ']' :: rest))
            hlenv hrest2
          have hw := rt_items w ws f rest hlenw
          rw [hsplit]
          simp only [parseListItems]
          rw [hv]
          simp [skipWsL_not_ws, isWsC, parseListItems_ws, hw]
termination_by v vs fuel rest hf => sizeOf v + sizeOf vs

/-- The member-list codec round trip up to the closing brace. -/
theorem rt_entries : ∀ (k : String) (v : PyVal) (es : List (String × PyVal)) (fuel : Nat)
    (rest : List Char),
    (dumpEntriesChars ((k, v) :: es)).length + 1 < fuel →
    parseDictItems fuel (dumpEntriesChars ((k, v) :: es) ++ '}' :: rest)
      = some ((k, v) :: es, rest)
  | k, v, [], fuel, rest, hf => by
      cases fuel with
      | zero => exact absurd hf (Nat.not_lt_zero _)
      | succ f =>
          obtain ⟨kl⟩ := k
          have hsplit :
              dumpEntriesChars ((⟨kl⟩, v) :: ([] : List (String × PyVal))) ++ '}' :: rest
              = '"' :: (kl.flatMap pyEscapeChar
                  ++ '"' :: (':' :: ' ' :: (dumpChars v ++ '}' :: rest))) := by
            show (dumpStrChars ⟨kl⟩ ++ ':' :: ' ' :: (dumpChars v ++ dumpEntriesSep []))
                ++ '}' :: rest = _
            simp [dumpStrChars, dumpEntriesSep]
          have hlenv : (dumpChars v).length < f := by
            have hl : (dumpEntriesChars ((⟨kl⟩, v) :: ([] : List (String × PyVal)))).length
                = (dumpStrChars ⟨kl⟩).length + 2 + (dumpChars v).length := by
              show (dumpStrChars ⟨kl⟩
                  ++ ':' :: ' ' :: (dumpChars v ++ dumpEntriesSep [])).length = _
              simp [dumpEntriesSep]
              omega
            omega
          have hrest2 : ∀ c0, ('}' :: rest).head? = some c0 → isDigitC c0 = false := by
            intro c0 h0
            simp only [List.head?_cons, Option.some.injEq] at h0
            subst h0
            decide
          have hv := rt_val v f ('}' :: rest) hlenv hrest2
          rw [hsplit]
          simp only [parseDictItems]
          simp [skipWsL_not_ws, isWsC, parseStrBody_flatMap, parseJsonVal_ws, hv]
  | k, v, (k2, v2) :: es2, fuel, rest, hf => by
      cases fuel with
      | zero => exact absurd hf (Nat.not_lt_zero _)
      | succ f =>
          obtain ⟨kl⟩ := k
          have hsepE : dumpEntriesSep ((k2, v2) :: es2)
              = ',' :: ' ' :: dumpEntriesChars ((k2, v2) :: es2) := rfl
          have hsplit : dumpEntriesChars ((⟨kl⟩, v) :: (k2, v2) :: es2) ++ '}' :: rest
              = '"' :: (kl.flatMap pyEscapeChar
                  ++ '"' :: (':' :: ' ' :: (dumpChars v
                    ++ ',' :: ' ' :: (dumpEntriesChars ((k2, v2) :: es2) ++ '}' :: rest)))) := by
            show (dumpStrChars ⟨kl⟩ ++ ':' :: ' ' :: (dumpChars v
                ++ dumpEntriesSep ((k2, v2) :: es2))) ++ '}' :: rest = _
            rw [hsepE]
            simp [dumpStrChars]
          have hlens : (dumpEntriesChars ((⟨kl⟩, v) :: (k2, v2) :: es2)).length
              = (dumpStrChars ⟨kl⟩).length + 2 + (dumpChars v).length + 2
                + (dumpEntriesChars ((k2, v2) :: es2)).length := by
            show (dumpStrChars ⟨kl⟩ ++ ':' :: ' ' :: (dumpChars v
                ++ dumpEntriesSep ((k2, v2) :: es2))).length = _
            rw [hsepE]
            simp
            omega
          have hlenv : (dumpChars v).length < f := by omega
          have hlen2 : (dumpEntriesChars ((k2, v2) :: es2)).length + 1 < f := by omega
          have hrest2 : ∀ c0,
              (',' :: ' ' :: (dumpEntriesChars ((k2, v2) :: es2) ++ '}' :: rest)).head?
                = some c0 → isDigitC c0 = false := by
            intro c0 h0
            simp only [List.head?_cons, Option.some.injEq] at h0
            subst h0
            decide
          have hv := rt_val v f
            (',' :: ' ' :: (dumpEntriesChars ((k2, v2) :: es2) ++ '}' :: rest)) hlenv hrest2
          have he := rt_entries k2 v2 es2 f rest hlen2
          rw [hsplit]
          simp only [parseDictItems]
          simp [skipWsL_not_ws, isWsC, parseStrBody_flatMap, parseJsonVal_ws, hv,
            parseDictItems_ws, he]
termination_by k v es fuel rest hf => sizeOf v + sizeOf es
end

/-- json.loads inverts json.dumps on every modelled Python value. -/
theorem jsonLoads_jsonDumps (v : PyVal) : jsonLoads (jsonDumps v) = some v := by
  have h := rt_val v ((dumpChars v).length + 1) [] (by omega) (fun c0 h0 => by cases h0)
  rw [List.append_nil] at h
  unfold jsonLoads
  have hdata : (jsonDumps v).data = dumpChars v := rfl
  rw [hdata, h]
  rfl

/-- Claim C9: push then pop returns every non-string JSON-expressible value
unchanged, while a string that itself parses as JSON comes back as the
parsed value (the string 123 returns as the integer 123), so the round
trip is not the identity on all strings. -/
theorem c9_cache_roundtrip :
    (∀ v : PyVal, v.isStr = false → cachePop (cachePush [] v) = some (v, [])) ∧
    cachePop (cachePush [] (PyVal.str "123")) = some (PyVal.int 123, []) ∧
    PyVal.int 123 ≠ PyVal.str "123" := by
  refine ⟨?_, ?_, ?_⟩
  · intro v hv
    have hser : cacheSerialize v = jsonDumps v := by
      cases v with
      | str s => simp [PyVal.isStr] at hv
      | null => rfl
      | bool b => rfl
      | int n => rfl
      | list items => rfl
      | dict entries => rfl
    have hpush : cachePush [] v = [jsonDumps v] := by
      show [] ++ [cacheSerialize v] = _
      rw [hser]
      rfl
    rw [hpush]
    simp only [cachePop]
    rw [jsonLoads_jsonDumps]
  · rfl
  · intro h
    cases h

/-- Witness for C9: a list of an integer and a boolean survives the cache
round trip. -/
theorem c9_cache_roundtrip_witness :
    cachePop (cachePush [] (PyVal.list [PyVal.int 5, PyVal.bool true]))
      = some (PyVal.list [PyVal.int 5, PyVal.bool true], []) :=
  c9_cache_roundtrip.1 (PyVal.list [PyVal.int 5, PyVal.bool true]) rfl
